import Mathlib

/-!
Verification development for the SaaS renewal intake subsystem.

The definitions below are a shallow embedding of the conversation-intake
code (`src/app/api/chat/route.ts`, `src/lib/benchmarks.ts`, and the earlier
route revision that holds `parseApproxAnnualCost`).  JavaScript strings are
modelled as Lean `String`s restricted to their ASCII behaviour, JavaScript
numbers as `ℚ` (the values that flow through these functions are
schema-validated finite numbers), and the mutable `Map`s as association
lists whose `set` conses the new binding in front, so that lookup sees the
latest write first.
-/

/-- The whitespace characters recognised by JavaScript `trim` / `\s`
(ASCII portion: tab, newline, vertical tab, form feed, carriage return,
space). -/
def jsIsWs (c : Char) : Bool :=
  c == ' ' || c == '\t' || c == '\n' || c == '\r' ||
    c == Char.ofNat 11 || c == Char.ofNat 12

/-- ASCII lower-casing, as `String.prototype.toLowerCase` acts on the
ASCII range. -/
def jsToLower (c : Char) : Char :=
  match c with
  | 'A' => 'a' | 'B' => 'b' | 'C' => 'c' | 'D' => 'd' | 'E' => 'e'
  | 'F' => 'f' | 'G' => 'g' | 'H' => 'h' | 'I' => 'i' | 'J' => 'j'
  | 'K' => 'k' | 'L' => 'l' | 'M' => 'm' | 'N' => 'n' | 'O' => 'o'
  | 'P' => 'p' | 'Q' => 'q' | 'R' => 'r' | 'S' => 's' | 'T' => 't'
  | 'U' => 'u' | 'V' => 'v' | 'W' => 'w' | 'X' => 'x' | 'Y' => 'y'
  | 'Z' => 'z'
  | other => other

/-- Drop leading JavaScript whitespace. -/
def dropLeadWs (l : List Char) : List Char :=
  l.dropWhile jsIsWs

/-- Drop trailing JavaScript whitespace. -/
def dropTrailWs (l : List Char) : List Char :=
  (l.reverse.dropWhile jsIsWs).reverse

/-- The definition `String.prototype.trim` on a character list. -/
def trimList (l : List Char) : List Char :=
  dropTrailWs (dropLeadWs l)

/-- The definition `String.prototype.trim`. -/
def trimStr (s : String) : String :=
  String.mk (trimList s.toList)

/-- The definition `String.prototype.toLowerCase` (ASCII). -/
def lowerStr (s : String) : String :=
  String.mk (s.toList.map jsToLower)

/-- Does `needle` occur at the start of `haystack`?  (Used to model both
anchored regexes and `String.prototype.startsWith`.) -/
def leadsWith : List Char → List Char → Bool
  | [], _ => true
  | _ :: _, [] => false
  | a :: as, b :: bs => a == b && leadsWith as bs

/-- The definition `haystack.includes(needle)` for JavaScript strings. -/
def inclAux (needle : List Char) : List Char → Bool
  | [] => needle.isEmpty
  | c :: rest => leadsWith needle (c :: rest) || inclAux needle rest

/-- The definition `haystack.includes(needle)`. -/
def strIncludes (haystack needle : String) : Bool :=
  inclAux needle.toList haystack.toList

/-- The JavaScript regex word character class `\w` = `[A-Za-z0-9_]`. -/
def isWordChar (c : Char) : Bool :=
  c.isAlpha || c.isDigit || c == '_'

/-- After consuming `n` characters of `cs`, is there a word boundary
(`\b`) — i.e. is the next character absent or a non-word character? -/
def boundaryAfterLen (n : Nat) (cs : List Char) : Bool :=
  match cs.drop n with
  | [] => true
  | c :: _ => !isWordChar c

/-- Does the word `w` occur at the head of `s` followed by a word
boundary?  (`s` is a position inside the scanned text.) -/
def wordAt (w s : List Char) : Bool :=
  leadsWith w s && boundaryAfterLen w.length s

/-- Scan `s` for an occurrence of `w` preceded and followed by a word
boundary; `atBoundary` records whether the current position follows a
non-word character (or the start of the text). -/
def containsWordAux (w : List Char) (atBoundary : Bool) : List Char → Bool
  | [] => atBoundary && wordAt w []
  | c :: rest => (atBoundary && wordAt w (c :: rest)) || containsWordAux w (!isWordChar c) rest

/-- The regex test `/\bw\b/` on `s` (for a word or phrase `w` that starts
and ends with word characters). -/
def containsWord (w s : String) : Bool :=
  containsWordAux w.toList true s.toList

/-- The regex test `/\b(w1|w2|...)\b/` on `s`. -/
def containsWordAny (ws : List String) (s : String) : Bool :=
  ws.any fun w => containsWord w s

/-- Anchored token match: the regex `/^(tok1|tok2|...)\b/i` applied to the
trimmed text (tokens are given lower-case; the text is lowered before the
comparison, matching the `i` flag). -/
def startTokenMatch (tokens : List String) (text : String) : Bool :=
  let t := (lowerStr (trimStr text)).toList
  tokens.any fun tok => leadsWith tok.toList t && boundaryAfterLen tok.toList.length t

/-- JavaScript string falsiness for an optional string field:
`!x` is true when the field is absent or the empty string. -/
def jsFalsyStr : Option String → Bool
  | none => true
  | some s => s == ""

/-! ### Benchmark data (`src/lib/benchmarks.ts`) -/

/-- One entry of the benchmark dataset. -/
structure SaaSBenchmark where
  tool : String
  aliases : List String
  plans : Option (List String) := none
  perSeatUsdMin : ℚ
  perSeatUsdMax : ℚ
  discountPctMin : ℚ
  discountPctMax : ℚ
  notes : String
deriving DecidableEq

/-- The seed benchmark dataset `SAAS_BENCHMARKS`. -/
def SAAS_BENCHMARKS : List SaaSBenchmark :=
  [ { tool := "Slack"
    , aliases := ["slack", "slack business+", "slack business plus"]
    , plans := some ["Free", "Pro", "Business+", "Enterprise Grid"]
    , perSeatUsdMin := 120, perSeatUsdMax := 210
    , discountPctMin := 8, discountPctMax := 24
    , notes := "Volume and multi-year deals usually unlock better rates than list pricing." }
  , { tool := "Figma"
    , aliases := ["figma"]
    , plans := some ["Starter", "Professional", "Organization", "Enterprise"]
    , perSeatUsdMin := 150, perSeatUsdMax := 650
    , discountPctMin := 8, discountPctMax := 25
    , notes := "Plan mix (design/dev) and seat commitments drive discounting more than list price." }
  , { tool := "Google Workspace"
    , aliases := ["google workspace", "workspace", "g suite"]
    , plans := some ["Business Starter", "Business Standard", "Business Plus", "Enterprise"]
    , perSeatUsdMin := 70, perSeatUsdMax := 260
    , discountPctMin := 5, discountPctMax := 20
    , notes := "Flexible vs annual terms and security add-ons materially change effective cost." }
  , { tool := "Microsoft 365"
    , aliases := ["microsoft 365", "office 365", "m365"]
    , plans := some ["Business Basic", "Business Standard", "Business Premium",
        "Apps for business", "E3", "E5"]
    , perSeatUsdMin := 75, perSeatUsdMax := 360
    , discountPctMin := 6, discountPctMax := 22
    , notes := "CSP channel and bundle mix can shift renewal economics significantly." }
  , { tool := "Notion"
    , aliases := ["notion"]
    , plans := some ["Free", "Plus", "Business", "Enterprise"]
    , perSeatUsdMin := 90, perSeatUsdMax := 220
    , discountPctMin := 10, discountPctMax := 28
    , notes := "Consolidated workspace counts and committed seat floors drive concessions." }
  , { tool := "Zoom"
    , aliases := ["zoom", "zoom workplace"]
    , plans := some ["Basic", "Pro", "Business", "Business Plus", "Enterprise"]
    , perSeatUsdMin := 120, perSeatUsdMax := 300
    , discountPctMin := 8, discountPctMax := 25
    , notes := "Room licenses, webinar add-ons, and payment timing strongly affect final pricing." }
  , { tool := "Atlassian Jira"
    , aliases := ["jira", "jira software", "atlassian"]
    , plans := some ["Free", "Standard", "Premium", "Enterprise"]
    , perSeatUsdMin := 95, perSeatUsdMax := 260
    , discountPctMin := 7, discountPctMax := 23
    , notes := "Data residency and enterprise support tiers can increase baseline cost." }
  , { tool := "Salesforce"
    , aliases := ["salesforce", "sfdc"]
    , plans := some ["Starter", "Professional", "Enterprise", "Unlimited"]
    , perSeatUsdMin := 700, perSeatUsdMax := 2400
    , discountPctMin := 10, discountPctMax := 30
    , notes := "Edition mix and co-term alignment matter more than nominal list prices." } ]

/-- The definition `findBenchmarkForTool`: first benchmark whose canonical name equals the
lower-cased trimmed query, or one of whose aliases occurs as a substring of
it.  Parameterised over the current benchmark list (the module-level array
can grow at runtime through discovery). -/
def findBenchmarkForTool (bs : List SaaSBenchmark) (tool : String) : Option SaaSBenchmark :=
  let normalized := trimStr (lowerStr tool)
  bs.find? fun b =>
    lowerStr b.tool == normalized || b.aliases.any fun a => strIncludes normalized a

/-- The definition `planOptionsForTool`: the ordered plan list of the resolved benchmark,
or `[]`. -/
def planOptionsForTool (bs : List SaaSBenchmark) (tool : String) : List String :=
  match findBenchmarkForTool bs tool with
  | some b => b.plans.getD []
  | none => []

/-! ### Line items and the merge algorithm (`route.ts`) -/

/-- One subscription line item (`lineItemSchema`); the numeric fields are
schema-validated to be non-negative, which the theorems carry as a
hypothesis where it matters. -/
structure LineItem where
  tool : String
  plan : Option String := none
  seats : Option ℚ := none
  annualCost : Option ℚ := none
  annualCostPerSeat : Option ℚ := none
  currency : Option String := none
  term : Option String := none
  notes : Option String := none
deriving DecidableEq

/-- The definition `normalizeToolName`: trim, then lower-case. -/
def normalizeToolName (tool : String) : String :=
  lowerStr (trimStr tool)

/-- The definition `canonicalToolName`: canonical benchmark name if the resolver matches,
otherwise the trimmed input. -/
def canonicalToolName (bs : List SaaSBenchmark) (tool : String) : String :=
  match findBenchmarkForTool bs tool with
  | some b => b.tool
  | none => trimStr tool

/-- Lookup in the association-list model of a JavaScript `Map` (first
binding wins; `set` conses in front, so the first binding is the latest). -/
def lookupIdx : List (String × Nat) → String → Option Nat
  | [], _ => none
  | (k, v) :: rest, key => if k == key then some v else lookupIdx rest key

/-- Generic association lookup used for `Record<string, T>` access. -/
def lookupAssoc {β : Type} : List (String × β) → String → Option β
  | [], _ => none
  | (k, v) :: rest, key => if k == key then some v else lookupAssoc rest key

/-- The definition `Map.set` / record-field assignment semantics that preserve the
insertion order of keys: an existing key is updated in place, a new key is
appended. -/
def setAssoc {β : Type} : List (String × β) → String → β → List (String × β)
  | [], k, v => [(k, v)]
  | (k0, v0) :: rest, k, v =>
    if k0 == k then (k0, v) :: rest else (k0, v0) :: setAssoc rest k v

/-- The `indexByTool` construction: `for i: map.set(normalize(tool_i), i)`;
each `set` conses the binding, so later indices shadow earlier ones. -/
def buildIndexFrom (i : Nat) : List LineItem → List (String × Nat) → List (String × Nat)
  | [], acc => acc
  | it :: rest, acc => buildIndexFrom (i + 1) rest ((normalizeToolName it.tool, i) :: acc)

/-- Index from normalized tool name to position. -/
def buildIndex (items : List LineItem) : List (String × Nat) :=
  buildIndexFrom 0 items []

/-- The object-spread merge of one matched pair:
`{...current, ...candidate, tool: current.tool || candidate.tool,
currency: candidate.currency ?? current.currency ?? "USD"}`.
Absent optional fields of `candidate` do not overwrite `current`. -/
def mergeFields (current candidate : LineItem) : LineItem :=
  { tool := if current.tool == "" then candidate.tool else current.tool
  , plan := candidate.plan <|> current.plan
  , seats := candidate.seats <|> current.seats
  , annualCost := candidate.annualCost <|> current.annualCost
  , annualCostPerSeat := candidate.annualCostPerSeat <|> current.annualCostPerSeat
  , currency := some ((candidate.currency <|> current.currency).getD "USD")
  , term := candidate.term <|> current.term
  , notes := candidate.notes <|> current.notes }

/-- One iteration of the `for (const candidate of incoming)` loop of
`mergeLineItems`. -/
def mergeStep (bs : List SaaSBenchmark) (st : List LineItem × List (String × Nat))
    (candidate : LineItem) : List LineItem × List (String × Nat) :=
  let merged := st.1
  let idx := st.2
  let canonicalTool := canonicalToolName bs candidate.tool
  let normalized := normalizeToolName canonicalTool
  match lookupIdx idx normalized with
  | none =>
    (merged ++ [{ candidate with tool := canonicalTool }], (normalized, merged.length) :: idx)
  | some i =>
    match merged.get? i with
    | some current => (merged.set i (mergeFields current candidate), idx)
    | none => (merged, idx)

/-- The definition `mergeLineItems(existing, incoming)`. -/
def mergeLineItems (bs : List SaaSBenchmark) (existing incoming : List LineItem) :
    List LineItem :=
  let start := existing.map fun it => { it with tool := canonicalToolName bs it.tool }
  (incoming.foldl (mergeStep bs) (start, buildIndex start)).1

/-! ### Text intent classifiers (`route.ts`) -/

/-- The negative-vocabulary token written with an apostrophe between
the words that and s (the character is built explicitly). -/
def thatsAllTok : String :=
  "that" ++ String.singleton (Char.ofNat 39) ++ "s all"

/-- The definition `isAffirmative`: `/^(y|yes|yeah|yep|sure|ok|okay|add|more)\b/i` on the
trimmed text. -/
def isAffirmative (text : String) : Bool :=
  startTokenMatch ["y", "yes", "yeah", "yep", "sure", "ok", "okay", "add", "more"] text

/-- The definition `isNegative`: anchored match of the negative vocabulary. -/
def isNegative (text : String) : Bool :=
  startTokenMatch
    ["n", "no", "nope", "nah", "done", "finished", thatsAllTok, "thats all",
     "all set", "nothing else", "no more", "no further"] text

/-- The definition `isMidTierAllTools`. -/
def isMidTierAllTools (text : String) : Bool :=
  let normalized := lowerStr (trimStr text)
  containsWordAny ["mid", "middle"] normalized &&
    containsWord "tier" normalized &&
    containsWordAny ["each", "all", "both", "those", "them"] normalized &&
    !(strIncludes normalized ":")

/-- The definition `looksLikeSinglePlanForAll`. -/
def looksLikeSinglePlanForAll (text : String) : Bool :=
  let normalized := lowerStr (trimStr text)
  if strIncludes normalized ":" then false
  else
    decide (0 < normalized.toList.length) && decide (normalized.toList.length ≤ 32) &&
      containsWordAny ["each", "all", "both", "those", "them"] normalized

/-- Number of maximal non-whitespace runs: `split(/\s+/).filter(Boolean).length`. -/
def countWords (l : List Char) : Nat :=
  (l.foldl
    (fun (st : Nat × Bool) c =>
      if jsIsWs c then (st.1, false)
      else if st.2 then (st.1, true) else (st.1 + 1, true))
    (0, false)).1

/-- The definition `looksLikePlanName`. -/
def looksLikePlanName (text : String) : Bool :=
  let normalized := trimStr text
  if normalized.toList.length == 0 || decide (48 < normalized.toList.length) then false
  else if normalized.toList.any fun c => c == '<' || c == '>' then false
  else if containsWordAny
      ["list", "show", "already shared", "repeat", "what did i", "what do you have"]
      (lowerStr normalized) then false
  else decide (countWords normalized.toList ≤ 6)

/-- The definition `looksLikeListRequest`. -/
def looksLikeListRequest (text : String) : Bool :=
  let normalized := lowerStr (trimStr text)
  containsWordAny ["list", "show", "repeat"] normalized &&
    (containsWord "already" normalized || containsWord "shared" normalized ||
      containsWord "have" normalized)

/-! ### Completeness analyzer (`route.ts`) -/

/-- Filter predicate of `missingPlanTools`:
`!item.plan || item.plan.trim().length === 0`. -/
def missesPlan (it : LineItem) : Bool :=
  match it.plan with
  | none => true
  | some p => (trimList p.toList).isEmpty

/-- The definition `missingPlanTools`. -/
def missingPlanTools (items : List LineItem) : List String :=
  (items.filter missesPlan).map fun it => it.tool

/-- Filter predicate of `missingPriceTools`:
`typeof x === "number" && !Number.isNaN(x)` holds exactly when the
optional rational field is present in this model. -/
def missesPrice (it : LineItem) : Bool :=
  !it.annualCost.isSome && !it.annualCostPerSeat.isSome

/-- The definition `missingPriceTools`. -/
def missingPriceTools (items : List LineItem) : List String :=
  (items.filter missesPrice).map fun it => it.tool

/-! ### Tier suggestion engine (`route.ts`) -/

/-- Tier intents. -/
inductive TierIntent where
  | low
  | mid
  | top
deriving DecidableEq

/-- Keyword-to-intent mapping of `parseTierStatements`. -/
def toIntent (keyword : String) : TierIntent :=
  if keyword == "mid" || keyword == "middle" then TierIntent.mid
  else if keyword == "top" || keyword == "highest" || keyword == "enterprise" then TierIntent.top
  else TierIntent.low

/-- The tier-word alternation of the tier regex, in alternation order. -/
def tierKeywords : List String :=
  ["low", "entry", "starter", "bottom", "lowest", "mid", "middle", "top", "highest", "enterprise"]

/-- First tier keyword matching at this position with a trailing word
boundary (regex alternation tries the alternatives in order). -/
def matchKeywordHere (cs : List Char) : Option (String × List Char) :=
  tierKeywords.findSome? fun kw =>
    if wordAt kw.toList cs then some (kw, cs.drop kw.toList.length) else none

/-- Greedy-with-backtracking match of `\s+([^.;\n]+)`: the whitespace run
gives up characters from the right until the capture is non-empty. -/
def wsTargetBacktrack (r : List Char) : Nat → Option (List Char × List Char)
  | 0 => none
  | j + 1 =>
    let after := r.drop (j + 1)
    let target := after.takeWhile fun c => !(c == '.' || c == ';' || c == '\n')
    if target.isEmpty then wsTargetBacktrack r j
    else some (target, after.drop target.length)

/-- Match `\s+([^.;\n]+)` at this position. -/
def wsTargetMatch (r : List Char) : Option (List Char × List Char) :=
  wsTargetBacktrack r (r.takeWhile jsIsWs).length

/-- Match `\s*(?:-|\s*)tier\b\s*for\s+([^.;\n]+)` after a tier keyword. -/
def tierTail (rest : List Char) : Option (List Char × List Char) :=
  let r1 := rest.dropWhile jsIsWs
  let r2 := match r1 with
    | '-' :: t => t
    | _ => r1
  if wordAt "tier".toList r2 then
    let r3 := (r2.drop 4).dropWhile jsIsWs
    if leadsWith "for".toList r3 then wsTargetMatch (r3.drop 3)
    else none
  else none

/-- Whole tier statement matching at this position: keyword, capture, and
the remaining text after the match. -/
def tierMatchHere (cs : List Char) : Option (String × List Char × List Char) :=
  match matchKeywordHere cs with
  | some (kw, rest) =>
    match tierTail rest with
    | some (target, remaining) => some (kw, target, remaining)
    | none => none
  | none => none

/-- Boundary-aware scan for a matcher applied at word-boundary positions
(the shape shared by the `\b`-anchored regex tests below). -/
def scanAtBoundary (p : List Char → Bool) : Bool → List Char → Bool
  | atB, [] => atB && p []
  | atB, c :: rest => (atB && p (c :: rest)) || scanAtBoundary p (!isWordChar c) rest

/-- Match `everything\s+else\b` at this position. -/
def everythingElseAt (s : List Char) : Bool :=
  leadsWith "everything".toList s &&
    (let r := s.drop 10
     let wsLen := (r.takeWhile jsIsWs).length
     decide (1 ≤ wsLen) && wordAt "else".toList (r.drop wsLen))

/-- Match `other\s+\d+\b` at this position. -/
def otherNumAt (s : List Char) : Bool :=
  leadsWith "other".toList s &&
    (let r := s.drop 5
     let wsLen := (r.takeWhile jsIsWs).length
     decide (1 ≤ wsLen) &&
       (let d := (r.drop wsLen).takeWhile Char.isDigit
        !d.isEmpty && boundaryAfterLen d.length (r.drop wsLen)))

/-- The catch-all test on a tier-statement target:
`/\b(the\s+)?(other|others|rest|remaining|everything\s+else)\b/` or
`/\bother\s+\d+\b/`.  (The optional `the\s+` never changes whether a
match exists, since the core alternative is itself word-bounded.) -/
def isRestTarget (target : List Char) : Bool :=
  containsWordAny ["other", "others", "rest", "remaining"] (String.mk target) ||
    scanAtBoundary everythingElseAt true target ||
    scanAtBoundary otherNumAt true target

/-- Split a target on `,` / `&` / ` and ` (the split regex of
`parseTierStatements`); the text is already lower-cased.  The fuel is an
upper bound on the number of characters left to scan. -/
def splitPartsAux (fuel : Nat) (cur : List Char) (l : List Char) : List (List Char) :=
  match fuel with
  | 0 => [cur.reverse]
  | fuel + 1 =>
    match l with
    | [] => [cur.reverse]
    | c :: rest =>
      if c == ',' || c == '&' then cur.reverse :: splitPartsAux fuel [] rest
      else if leadsWith " and ".toList (c :: rest) then
        cur.reverse :: splitPartsAux fuel [] (rest.drop 4)
      else splitPartsAux fuel (c :: cur) rest

/-- Split a target on the separators `,` / `&` / ` and `. -/
def splitParts (target : List Char) : List (List Char) :=
  splitPartsAux (target.length + 1) [] target

/-- Boundary state after consuming a match that ends with `target`. -/
def nextBoundary (target : List Char) : Bool :=
  match target.reverse with
  | c :: _ => !isWordChar c
  | [] => true

/-- The `exec` loop of `parseTierStatements`: scan for tier statements,
recording per-target intents in insertion order; a catch-all target
returns immediately with a `restIntent`. -/
def parseTierAux (fuel : Nat) (atB : Bool) (cs : List Char)
    (acc : List (String × TierIntent)) : List (String × TierIntent) × Option TierIntent :=
  match fuel with
  | 0 => (acc, none)
  | fuel + 1 =>
    match cs with
    | [] => (acc, none)
    | c :: rest =>
      match (if atB then tierMatchHere (c :: rest) else none) with
      | some (keyword, target, remaining) =>
        let intent := toIntent keyword
        if isRestTarget target then (acc, some intent)
        else
          let parts :=
            ((splitParts target).map fun p => String.mk (trimList p)).filter
              fun p => p ≠ ""
          let acc2 := parts.foldl (fun a p => setAssoc a p intent) acc
          parseTierAux fuel (nextBoundary target) remaining acc2
      | none => parseTierAux fuel (!isWordChar c) rest acc

/-- The definition `parseTierStatements(text)`. -/
def parseTierStatements (text : String) :
    List (String × TierIntent) × Option TierIntent :=
  let normalized := (lowerStr text).toList
  parseTierAux (normalized.length + 1) true normalized []

/-- The definition `middlePlanCandidates`. -/
def middlePlanCandidates (plans : List String) : List String :=
  if plans.length == 0 then []
  else if decide (plans.length ≤ 2) then plans
  else if plans.length % 2 == 1 then [plans.getD (plans.length / 2) ""]
  else [plans.getD (plans.length / 2 - 1) "", plans.getD (plans.length / 2) ""]

/-- The definition `suggestionForIntent`. -/
def suggestionForIntent (plans : List String) : TierIntent → List String
  | TierIntent.top =>
    match plans.getLast? with
    | some p => [p]
    | none => []
  | TierIntent.low =>
    match plans.head? with
    | some p => [p]
    | none => []
  | TierIntent.mid => middlePlanCandidates plans

/-- The definition `resolveIntentForTool` of `mapTierSuggestions`: explicit tier-statement
targets in insertion order, then the bare-adjective heuristic for tools
mentioned in the message (`explicitMentions.has(toolLower)` is equivalent
to the `includes` test that populated the set). -/
def resolveIntentForTool (toolIntents : List (String × TierIntent))
    (normalizedMessage : String) (tool : String) : Option TierIntent :=
  let toolLower := lowerStr tool
  match toolIntents.findSome? (fun e =>
      let targetLower := lowerStr e.1
      if strIncludes targetLower toolLower || strIncludes toolLower targetLower then
        some e.2
      else none) with
  | some intent => some intent
  | none =>
    if strIncludes normalizedMessage toolLower then
      if containsWordAny ["top", "highest", "enterprise"] normalizedMessage then
        some TierIntent.top
      else if containsWordAny ["mid", "middle"] normalizedMessage then
        some TierIntent.mid
      else if containsWordAny ["low", "entry", "starter", "bottom", "lowest"] normalizedMessage then
        some TierIntent.low
      else none
    else none

/-- The definition `mapTierSuggestions({message, missingTools})`. -/
def mapTierSuggestions (bs : List SaaSBenchmark) (message : String)
    (missingTools : List String) : Option (List (String × List String)) :=
  let parsed := parseTierStatements message
  let normalizedMessage := lowerStr message
  let step1 :=
    missingTools.foldl
      (fun (st : List (String × List String) × List String) tool =>
        match resolveIntentForTool parsed.1 normalizedMessage tool with
        | none => st
        | some intent =>
          let options := planOptionsForTool bs tool
          let candidate := suggestionForIntent options intent
          if candidate.isEmpty then st
          else (setAssoc st.1 tool candidate, st.2 ++ [tool]))
      ([], [])
  let suggestions :=
    match parsed.2 with
    | none => step1.1
    | some restIntent =>
      missingTools.foldl
        (fun acc tool =>
          if step1.2.contains tool then acc
          else
            let options := planOptionsForTool bs tool
            let candidate := suggestionForIntent options restIntent
            if candidate.isEmpty then acc else setAssoc acc tool candidate)
        step1.1
  if suggestions.isEmpty then none else some suggestions

/-! ### Approximate price parsing (earlier route revision) -/

/-- Digits-to-value accumulator for a run of ASCII digits. -/
def natOfDigits (l : List Char) : Nat :=
  l.foldl (fun n c => 10 * n + (c.toNat - 48)) 0

/-- The definition `Math.round (num / den)` for non-negative exact fractions:
`floor (num / den + 1/2) = (2 * num + den) / (2 * den)` in integer
division.  (The values reaching `Math.round` in the source are
non-negative, where this identity is exact.) -/
def jsRoundFrac (num den : Nat) : Nat :=
  (2 * num + den) / (2 * den)

/-- The match and group extraction of `parseApproxAnnualCost`: the first
match of `(\$?\s*)(\d[\d,]*)(\.\d+)?\s*([km])?` on the trimmed
lower-cased text.  The required group starts at the first digit of the
text (everything before it in the pattern is optional), so the match is
located there.  Returns the integer digits with commas stripped (group 2
after the `replace`), the fractional digits (group 3 without its dot),
and the multiplier the `k`/`m` suffix group selects; `none` when the
regex does not match, i.e. when the text has no digit. -/
def approxCostGroups (text : String) : Option (List Char × List Char × Nat) :=
  let normalized := (lowerStr (trimStr text)).toList
  match normalized.dropWhile (fun c => !c.isDigit) with
  | [] => none
  | d :: rest =>
    let g2 := (d :: rest).takeWhile fun c => c.isDigit || c == ','
    let r1 := (d :: rest).drop g2.length
    let fracDigits :=
      match r1 with
      | '.' :: r => r.takeWhile Char.isDigit
      | _ => []
    let r2 := if fracDigits.isEmpty then r1 else r1.drop (fracDigits.length + 1)
    let r3 := r2.dropWhile jsIsWs
    let suffix :=
      match r3 with
      | c :: _ => if c == 'k' || c == 'm' then some c else none
      | [] => none
    let intDigits := g2.filter fun c => !(c == ',')
    let scale : Nat :=
      match suffix with
      | some c => if c == 'k' then 1000 else 1000000
      | none => 1
    some (intDigits, fracDigits, scale)

/-- The test `!Number.isFinite(Number(intPart + fracPart))` of the source
on the captured digit groups: converting the non-negative decimal literal
to a binary64 number (round to nearest, ties to even) yields `Infinity`
exactly when the exact value is at least `2 ^ 1024 - 2 ^ 970`, the
overflow threshold halfway between the largest finite double and
`2 ^ 1024`.  The comparison is taken in exact integer arithmetic after
scaling both sides by `10 ^ L` where `L` is the fractional length. -/
def jsNumOverflows (intDigits fracDigits : List Char) : Bool :=
  decide ((2 ^ 1024 - 2 ^ 970) * 10 ^ fracDigits.length ≤
    natOfDigits intDigits * 10 ^ fracDigits.length + natOfDigits fracDigits)

/-- The definition `parseApproxAnnualCost(text)`: locate the first
currency-shaped token, return `null` when there is none or when the
`Number(...)` parse of its digit groups overflows to `Infinity`
(the `!Number.isFinite(base)` early return), otherwise scale the exact
fraction `(intPart * 10^L + fracPart) / 10^L` by the `k`/`m` multiplier
and round to the nearest integer. -/
def parseApproxAnnualCost (text : String) : Option Int :=
  match approxCostGroups text with
  | none => none
  | some g =>
    if jsNumOverflows g.1 g.2.1 then none
    else
      let num := (natOfDigits g.1 * 10 ^ g.2.1.length + natOfDigits g.2.1) * g.2.2
      some (jsRoundFrac num (10 ^ g.2.1.length) : Nat)

/-! ### Rate limiter (`route.ts`) -/

/-- Stored window state per key. -/
structure RateLimitState where
  count : Nat
  resetAt : Nat
deriving DecidableEq

/-- Result reported to the caller. -/
structure RateLimitOutcome where
  limited : Bool
  retryAfterSeconds : Option Nat := none
deriving DecidableEq

/-- The definition `Map.set` for the rate-limit store. -/
def rlSet (store : List (String × RateLimitState)) (ip : String) (st : RateLimitState) :
    List (String × RateLimitState) :=
  (ip, st) :: store

/-- The definition `checkRateLimit(ip)` over an explicit store and clock
(`Math.ceil((resetAt - now)/1000)` on millisecond integers is
`(resetAt - now + 999) / 1000`). -/
def checkRateLimit (windowMs maxRequests : Nat) (store : List (String × RateLimitState))
    (currentTime : Nat) (ip : String) :
    RateLimitOutcome × List (String × RateLimitState) :=
  match lookupAssoc store ip with
  | none =>
    ({ limited := false }, rlSet store ip { count := 1, resetAt := currentTime + windowMs })
  | some current =>
    if current.resetAt ≤ currentTime then
      ({ limited := false }, rlSet store ip { count := 1, resetAt := currentTime + windowMs })
    else if maxRequests ≤ current.count then
      ({ limited := true
       , retryAfterSeconds := some (max 1 ((current.resetAt - currentTime + 999) / 1000)) },
       store)
    else
      ({ limited := false }, rlSet store ip { current with count := current.count + 1 })

/-! ### Intake state machine (`route.ts`, POST handler) -/

/-- The dialogue stages. -/
inductive Stage where
  | collect
  | confirm_plans
  | confirm_more
  | prompt_signin
  | ready
  | briefed
deriving DecidableEq

/-- Per-session accumulator (`intakeStateSchema`). -/
structure IntakeState where
  lineItems : List LineItem
  planSuggestions : List (String × List String)
  stage : Stage
deriving DecidableEq

/-- Modelled from the spec: the empty initial intake state created at
session start (`intakeStateSchema.parse({})`; the schema module itself is
not part of the provided sources).  Spec §3: "created empty at session
start", with the stage enum starting at `collect`. -/
def initialIntakeState : IntakeState :=
  { lineItems := [], planSuggestions := [], stage := Stage.collect }

/-- External effects of one turn, supplied as an oracle: the extraction
call (`none` models a thrown `generateJson`, which the handler replaces by
an empty item list), the advisory-generation call outcome, and whether the
session has an authenticated user. -/
structure TurnOracle where
  extraction : Option (List LineItem)
  advisorOk : Bool
  userId : Bool
deriving DecidableEq

/-- The reply sent back for the turn, abstracted to the branch taken and
the data interpolated into the reply text. -/
inductive TurnReply where
  | summary (items : List LineItem)
  | stillNeedPlans (ambiguous : List (String × List String))
  | missingPricePrompt (tools : List String)
  | confirmMorePrompt
  | addAnotherPrompt
  | planChoicePrompt
  | addNextPrompt
  | confirmMoreRepeat
  | brief
  | advisorFallback (items : List LineItem)
  | signinPrompt
  | collectPrompt
  | planGuessPrompt (suggestions : List (String × List String))
  | midTierClarify (tools : List String)
  | planOptionsPrompt (tools : List String)
  | openEnded (ok : Bool)
deriving DecidableEq

/-- The fill of unambiguous plan guesses on a "correct"/"yes" reply:
`if (!item.plan && options && options.length === 1)` set the single
suggested plan. -/
def fillSuggestedPlans (suggestions : List (String × List String))
    (items : List LineItem) : List LineItem :=
  items.map fun item =>
    match lookupAssoc suggestions item.tool with
    | some options =>
      if jsFalsyStr item.plan && options.length == 1 then
        { item with plan := some (options.getD 0 "") }
      else item
    | none => item

/-- The fill of one chosen plan for the single ambiguous tool. -/
def fillChosenPlan (tool chosen : String) (items : List LineItem) : List LineItem :=
  items.map fun item =>
    if item.tool == tool then { item with plan := some chosen } else item

/-- The `confirm_plans` block: confirmation of tier-derived plan guesses.
Returns the state persisted by the turn (the incoming state when the turn
does not persist) and the reply. -/
def confirmPlansTurn (state : IntakeState) (msg : String) : IntakeState × TurnReply :=
  let normalized := lowerStr (trimStr msg)
  let suggestions := state.planSuggestions
  if normalized == "correct" || normalized == "looks good" || normalized == "yes" then
    let ambiguous := suggestions.filter fun e => e.2.length ≠ 1
    if ambiguous.isEmpty then
      let filled := fillSuggestedPlans suggestions state.lineItems
      let nextState : IntakeState :=
        { state with lineItems := filled, planSuggestions := [], stage := Stage.collect }
      let mp := missingPriceTools filled
      (nextState,
        if mp.isEmpty then TurnReply.confirmMorePrompt else TurnReply.missingPricePrompt mp)
    else (state, TurnReply.stillNeedPlans ambiguous)
  else
    let ambiguousTools := suggestions.filter fun e => e.2.length == 2
    match ambiguousTools with
    | [(tool, options)] =>
      (match options.find? (fun o => lowerStr o == normalized) with
       | some chosen =>
         let filled := fillChosenPlan tool chosen state.lineItems
         let nextState : IntakeState :=
           { state with lineItems := filled, planSuggestions := [], stage := Stage.collect }
         let mp := missingPriceTools filled
         (nextState,
           if mp.isEmpty then TurnReply.addAnotherPrompt else TurnReply.missingPricePrompt mp)
       | none => (state, TurnReply.planChoicePrompt))
    | _ => (state, TurnReply.planChoicePrompt)

/-- The stop-list filter applied to extracted items before merging. -/
def filterExtractedItems (extracted : List LineItem) : List LineItem :=
  extracted.filter fun item =>
    let tool := lowerStr (trimStr item.tool)
    !(tool == "" || tool == "unknown" || tool == "n/a" || tool == "na" || tool == "none")

/-- The completeness-driven tail of the collection block after the
single-plan autofill, taking the (possibly autofilled) merged list:
tier suggestions, mid-tier clarification, plan-for-all autofill, and the
missing-plan / missing-price replies. -/
def collectResolve (bs : List SaaSBenchmark) (state : IntakeState) (msg : String)
    (extractedEmpty : Bool) (merged1 : List LineItem) : IntakeState × TurnReply :=
  let missingPlans := missingPlanTools merged1
  if missingPlans.isEmpty then
    let mp := missingPriceTools merged1
    if mp.isEmpty then
      ({ state with lineItems := merged1, stage := Stage.confirm_more },
        TurnReply.confirmMorePrompt)
    else
      ({ state with lineItems := merged1, stage := Stage.collect },
        TurnReply.missingPricePrompt mp)
  else
    match (if extractedEmpty then mapTierSuggestions bs msg missingPlans else none) with
    | some tierSuggestions =>
      ({ state with
          lineItems := merged1
          planSuggestions := tierSuggestions
          stage := Stage.confirm_plans },
        TurnReply.planGuessPrompt tierSuggestions)
    | none =>
      if extractedEmpty && isMidTierAllTools msg then
        ({ state with lineItems := merged1, stage := Stage.collect },
          TurnReply.midTierClarify missingPlans)
      else
        let merged2 :=
          if extractedEmpty && looksLikeSinglePlanForAll msg then
            merged1.map fun item =>
              if missingPlans.contains item.tool then { item with plan := some (trimStr msg) }
              else item
          else merged1
        let after := missingPlanTools merged2
        if after.isEmpty then
          let mp := missingPriceTools merged2
          if mp.isEmpty then
            ({ state with lineItems := merged2, stage := Stage.confirm_more },
              TurnReply.confirmMorePrompt)
          else
            ({ state with lineItems := merged2, stage := Stage.collect },
              TurnReply.missingPricePrompt mp)
        else
          ({ state with lineItems := merged2, stage := Stage.collect },
            TurnReply.planOptionsPrompt missingPlans)

/-- The tail of the collection block after a non-empty merge: the
single-missing-plan autofill, then the resolution tail. -/
def collectAdvance (bs : List SaaSBenchmark) (state : IntakeState) (msg : String)
    (extractedEmpty : Bool) (merged0 : List LineItem) : IntakeState × TurnReply :=
  let missingPlansBefore := missingPlanTools merged0
  let merged1 :=
    if missingPlansBefore.length == 1 && extractedEmpty && looksLikePlanName msg then
      merged0.map fun item =>
        if item.tool == missingPlansBefore.getD 0 "" then { item with plan := some msg }
        else item
    else merged0
  collectResolve bs state msg extractedEmpty merged1

/-- The collection block (every stage other than `confirm_plans`,
`confirm_more`, un-authenticated `prompt_signin`, `ready` and `briefed`
falls through to it): negative-reply rerouting, extraction, merge, then
the advance tail. -/
def collectTurn (bs : List SaaSBenchmark) (state : IntakeState) (msg : String)
    (o : TurnOracle) : IntakeState × TurnReply :=
  if isNegative msg && !state.lineItems.isEmpty then
    ({ state with stage := Stage.confirm_more }, TurnReply.confirmMorePrompt)
  else
    let extractedItems := filterExtractedItems (o.extraction.getD [])
    let merged0 := mergeLineItems bs state.lineItems extractedItems
    if merged0.isEmpty then
      ({ state with lineItems := merged0, stage := Stage.collect }, TurnReply.collectPrompt)
    else
      collectAdvance bs state msg extractedItems.isEmpty merged0

/-- One intake turn of the POST handler, from the stage dispatch on (the
session store is available; the message has already been trimmed and
admitted).  The returned state is the state persisted during the turn, or
the unchanged input state when the turn persists nothing. -/
def intakeTurn (bs : List SaaSBenchmark) (state : IntakeState) (msg : String)
    (o : TurnOracle) : IntakeState × TurnReply :=
  if looksLikeListRequest msg then (state, TurnReply.summary state.lineItems)
  else
    match state.stage with
    | Stage.confirm_plans => confirmPlansTurn state msg
    | Stage.confirm_more =>
      if isAffirmative msg then
        ({ state with stage := Stage.collect }, TurnReply.addNextPrompt)
      else if isNegative msg then
        let nextState : IntakeState := { state with stage := Stage.ready }
        if o.advisorOk then ({ nextState with stage := Stage.briefed }, TurnReply.brief)
        else (nextState, TurnReply.advisorFallback nextState.lineItems)
      else (state, TurnReply.confirmMoreRepeat)
    | Stage.prompt_signin =>
      if !o.userId then (state, TurnReply.signinPrompt)
      else collectTurn bs state msg o
    | Stage.ready =>
      if o.advisorOk then ({ state with stage := Stage.briefed }, TurnReply.brief)
      else (state, TurnReply.advisorFallback state.lineItems)
    | Stage.briefed => (state, TurnReply.openEnded o.advisorOk)
    | Stage.collect => collectTurn bs state msg o

/-- States reachable from the empty initial intake state by intake turns
(arbitrary messages and oracle outcomes). -/
inductive ReachableIntake (bs : List SaaSBenchmark) : IntakeState → Prop where
  | init : ReachableIntake bs initialIntakeState
  | step (s : IntakeState) (msg : String) (o : TurnOracle) :
      ReachableIntake bs s → ReachableIntake bs (intakeTurn bs s msg o).1

/-- A price field is "a finite non-negative number" in the sense of the
spec: present and non-negative (every rational of the model is finite). -/
def isFiniteNonnegPrice : Option ℚ → Bool
  | none => false
  | some q => decide (0 ≤ q)

/-- The definition `missingPriceTools` as the spec words it: tools of the items for which
neither `annualCost` nor `annualCostPerSeat` is a finite non-negative
number. -/
def missingPriceToolsSpec (items : List LineItem) : List String :=
  (items.filter fun it =>
    !isFiniteNonnegPrice it.annualCost && !isFiniteNonnegPrice it.annualCostPerSeat).map
    fun it => it.tool

/-- A four-plan Figma benchmark and a two-plan Notion benchmark for the
tier-suggestion scenario of the spec (the scenario in the spec fixes these plan
counts; the live Notion entry has four plans). -/
def midTierScenarioBenchmarks : List SaaSBenchmark :=
  [ { tool := "Figma"
    , aliases := ["figma"]
    , plans := some ["Starter", "Professional", "Organization", "Enterprise"]
    , perSeatUsdMin := 150, perSeatUsdMax := 650
    , discountPctMin := 8, discountPctMax := 25
    , notes := "scenario data" }
  , { tool := "Notion"
    , aliases := ["notion"]
    , plans := some ["Plus", "Business"]
    , perSeatUsdMin := 90, perSeatUsdMax := 220
    , discountPctMin := 10, discountPctMax := 28
    , notes := "scenario data" } ]

/-! ## Theorems -/

/-- C3: the rate limiter opens a fresh window (count 1, end `now + W`) on
a first call or once the stored window has expired and admits; strictly
inside the window it increments and admits below the maximum, and rejects
at or above the maximum with `retryAfterSeconds = ceil((windowEnd-now)/1000)`
(at least 1, so the `max 1` guard is inert) without touching the store. -/
theorem C3_checkRateLimit_spec :
    ∀ (windowMs maxRequests : Nat) (store : List (String × RateLimitState))
      (t : Nat) (ip : String),
      (lookupAssoc store ip = none →
        checkRateLimit windowMs maxRequests store t ip =
          ({ limited := false },
            rlSet store ip { count := 1, resetAt := t + windowMs })) ∧
      (∀ cur : RateLimitState, lookupAssoc store ip = some cur → cur.resetAt ≤ t →
        checkRateLimit windowMs maxRequests store t ip =
          ({ limited := false },
            rlSet store ip { count := 1, resetAt := t + windowMs })) ∧
      (∀ cur : RateLimitState, lookupAssoc store ip = some cur → t < cur.resetAt →
        cur.count < maxRequests →
        checkRateLimit windowMs maxRequests store t ip =
          ({ limited := false },
            rlSet store ip { count := cur.count + 1, resetAt := cur.resetAt })) ∧
      (∀ cur : RateLimitState, lookupAssoc store ip = some cur → t < cur.resetAt →
        maxRequests ≤ cur.count →
        checkRateLimit windowMs maxRequests store t ip =
          ({ limited := true,
             retryAfterSeconds := some ((cur.resetAt - t + 999) / 1000) }, store) ∧
        1 ≤ (cur.resetAt - t + 999) / 1000) := by
  intro windowMs maxRequests store t ip
  refine ⟨fun hnone => ?_, fun cur hcur hle => ?_, fun cur hcur hlt hcnt => ?_,
    fun cur hcur hlt hcnt => ?_⟩
  · simp [checkRateLimit, hnone]
  · simp [checkRateLimit, hcur, hle]
  · have hnle : ¬ cur.resetAt ≤ t := by omega
    have hnge : ¬ maxRequests ≤ cur.count := by omega
    simp [checkRateLimit, hcur, hnle, hnge]
  · have hnle : ¬ cur.resetAt ≤ t := by omega
    have hone : 1 ≤ (cur.resetAt - t + 999) / 1000 := by
      rw [Nat.le_div_iff_mul_le (by norm_num)]
      omega
    constructor
    · simp [checkRateLimit, hcur, hnle, hcnt]
      omega
    · exact hone

/-- Witness for C3 at concrete inputs: a first call, an expired window, an
in-window admit, and an in-window reject (window end 5000, now 1500
yields retry-after 4 seconds). -/
theorem C3_checkRateLimit_spec_witness :
    checkRateLimit 60000 20 [] 100 "a" =
      ({ limited := false }, [("a", { count := 1, resetAt := 60100 })]) ∧
    checkRateLimit 60000 20 [("a", { count := 7, resetAt := 50 })] 100 "a" =
      ({ limited := false },
        [("a", { count := 1, resetAt := 60100 }), ("a", { count := 7, resetAt := 50 })]) ∧
    checkRateLimit 60000 20 [("a", { count := 7, resetAt := 5000 })] 1500 "a" =
      ({ limited := false },
        [("a", { count := 8, resetAt := 5000 }), ("a", { count := 7, resetAt := 5000 })]) ∧
    (checkRateLimit 60000 20 [("a", { count := 20, resetAt := 5000 })] 1500 "a" =
      ({ limited := true, retryAfterSeconds := some 4 },
        [("a", { count := 20, resetAt := 5000 })]) ∧
      1 ≤ (5000 - 1500 + 999) / 1000) := by
  refine ⟨?_, ?_, ?_, ?_⟩
  · exact (C3_checkRateLimit_spec 60000 20 [] 100 "a").1 (by decide)
  · exact (C3_checkRateLimit_spec 60000 20 [("a", { count := 7, resetAt := 50 })] 100 "a").2.1
      { count := 7, resetAt := 50 } (by decide) (by decide)
  · exact (C3_checkRateLimit_spec 60000 20 [("a", { count := 7, resetAt := 5000 })] 1500
      "a").2.2.1 { count := 7, resetAt := 5000 } (by decide) (by decide) (by decide)
  · exact (C3_checkRateLimit_spec 60000 20 [("a", { count := 20, resetAt := 5000 })] 1500
      "a").2.2.2 { count := 20, resetAt := 5000 } (by decide) (by decide) (by decide)

/-- C4 counterexample: merging an empty incoming list does not return the
existing list unchanged — an alias-cased tool name is canonicalized. -/
theorem C4_counterexample :
    mergeLineItems SAAS_BENCHMARKS [{ tool := "slack" }] [] ≠ [{ tool := "slack" }] := by
  decide

/-- C4 amended: merging an empty incoming list returns the existing list
with each tool name canonicalized (order and all other fields unchanged);
in particular it returns the existing list itself exactly when every
existing tool name is already canonical. -/
theorem C4_merge_empty_incoming :
    (∀ (bs : List SaaSBenchmark) (existing : List LineItem),
        mergeLineItems bs existing [] =
          existing.map fun it => { it with tool := canonicalToolName bs it.tool }) ∧
    (∀ (bs : List SaaSBenchmark) (existing : List LineItem),
        (∀ it ∈ existing, canonicalToolName bs it.tool = it.tool) →
        mergeLineItems bs existing [] = existing) := by
  have base : ∀ (bs : List SaaSBenchmark) (existing : List LineItem),
      mergeLineItems bs existing [] =
        existing.map fun it => { it with tool := canonicalToolName bs it.tool } := by
    intro bs existing
    simp [mergeLineItems]
  refine ⟨base, fun bs existing hfix => ?_⟩
  rw [base]
  have : ∀ it ∈ existing,
      ({ it with tool := canonicalToolName bs it.tool } : LineItem) = it := by
    intro it hit
    rw [hfix it hit]
  calc existing.map (fun it => { it with tool := canonicalToolName bs it.tool })
      = existing.map id := List.map_congr_left this
    _ = existing := List.map_id existing

/-- Witness for the amended C4 theorem: an already-canonical list is
returned untouched. -/
theorem C4_merge_empty_incoming_witness :
    mergeLineItems SAAS_BENCHMARKS [{ tool := "Slack" }] [] = [{ tool := "Slack" }] := by
  exact C4_merge_empty_incoming.2 SAAS_BENCHMARKS [{ tool := "Slack" }] (by decide)

/-- C7: on schema-valid items (present price fields are non-negative, as
`lineItemSchema` enforces), `missingPriceTools` returns exactly the tools
whose items have neither price field a finite non-negative number; and an
item with `annualCostPerSeat` present never passes the missing-price
filter, whatever its `annualCost`. -/
theorem C7_missingPriceTools_spec :
    (∀ items : List LineItem,
        (∀ it ∈ items,
          (∀ q : ℚ, it.annualCost = some q → 0 ≤ q) ∧
          (∀ q : ℚ, it.annualCostPerSeat = some q → 0 ≤ q)) →
        missingPriceTools items = missingPriceToolsSpec items) ∧
    (∀ it : LineItem, it.annualCostPerSeat.isSome = true → missesPrice it = false) := by
  constructor
  · intro items hvalid
    unfold missingPriceTools missingPriceToolsSpec
    congr 1
    apply List.filter_congr
    intro it hit
    rcases hvalid it hit with ⟨hac, haps⟩
    unfold missesPrice isFiniteNonnegPrice
    cases hc : it.annualCost with
    | none =>
      cases hp : it.annualCostPerSeat with
      | none => simp
      | some q => simp [decide_eq_true_eq.mpr (haps q hp)]
    | some q =>
      cases hp : it.annualCostPerSeat with
      | none => simp [decide_eq_true_eq.mpr (hac q hc)]
      | some r => simp [decide_eq_true_eq.mpr (hac q hc)]
  · intro it h
    unfold missesPrice
    simp [h]

/-- Witness for C7: an item with only per-seat pricing is price-complete,
an item with neither field is reported. -/
theorem C7_missingPriceTools_spec_witness :
    missingPriceTools
        [{ tool := "Figma", annualCostPerSeat := some 300 }, { tool := "Notion" }] =
      missingPriceToolsSpec
        [{ tool := "Figma", annualCostPerSeat := some 300 }, { tool := "Notion" }] ∧
    missesPrice { tool := "Figma", annualCostPerSeat := some 300 } = false := by
  constructor
  · exact C7_missingPriceTools_spec.1
      [{ tool := "Figma", annualCostPerSeat := some 300 }, { tool := "Notion" }]
      (by
        intro it hit
        simp only [List.mem_cons, List.not_mem_nil, or_false] at hit
        rcases hit with rfl | rfl
        · refine ⟨fun q hq => (by cases hq), fun q hq => ?_⟩
          have hq2 : (300 : ℚ) = q := by injection hq
          rw [← hq2]
          norm_num
        · exact ⟨fun q hq => (by cases hq), fun q hq => (by cases hq)⟩)
  · exact C7_missingPriceTools_spec.2 { tool := "Figma", annualCostPerSeat := some 300 } rfl

/-- Elements of `dropWhile p l` are elements of `l`. -/
theorem mem_of_mem_dropWhile {p : Char → Bool} {l : List Char} {c : Char}
    (h : c ∈ l.dropWhile p) : c ∈ l := by
  induction l with
  | nil => simp at h
  | cons a t ih =>
    by_cases hp : p a
    · simp only [List.dropWhile_cons, hp, if_true] at h
      exact List.mem_cons_of_mem a (ih h)
    · simp only [List.dropWhile_cons, hp, if_false] at h
      exact h

/-- An element of `l` survives `dropWhile p` unless it satisfies `p`. -/
theorem mem_dropWhile_or {p : Char → Bool} {l : List Char} {c : Char}
    (h : c ∈ l) : c ∈ l.dropWhile p ∨ p c = true := by
  induction l with
  | nil => simp at h
  | cons a t ih =>
    by_cases hp : p a
    · simp only [List.dropWhile_cons, hp, if_true]
      rcases List.mem_cons.mp h with rfl | hmem
      · exact Or.inr hp
      · exact ih hmem
    · simp only [List.dropWhile_cons, hp, if_false]
      exact Or.inl h

/-- Elements of the trimmed list are elements of the original. -/
theorem mem_of_mem_trimList {l : List Char} {c : Char} (h : c ∈ trimList l) : c ∈ l := by
  unfold trimList dropTrailWs dropLeadWs at h
  rw [List.mem_reverse] at h
  have h2 := mem_of_mem_dropWhile h
  rw [List.mem_reverse] at h2
  exact mem_of_mem_dropWhile h2

/-- An element of `l` survives trimming unless it is whitespace. -/
theorem mem_trimList_or {l : List Char} {c : Char} (h : c ∈ l) :
    c ∈ trimList l ∨ jsIsWs c = true := by
  unfold trimList dropTrailWs dropLeadWs
  rcases mem_dropWhile_or (p := jsIsWs) h with h1 | h1
  · rw [← List.mem_reverse] at h1
    rcases mem_dropWhile_or (p := jsIsWs) h1 with h2 | h2
    · rw [← List.mem_reverse] at h2
      exact Or.inl h2
    · exact Or.inr h2
  · exact Or.inr h1

/-- JavaScript whitespace characters are not digits. -/
theorem jsIsWs_not_digit {c : Char} (h : jsIsWs c = true) : c.isDigit = false := by
  unfold jsIsWs at h
  simp only [Bool.or_eq_true, beq_iff_eq] at h
  rcases h with ((((h | h) | h) | h) | h) | h <;> subst h <;> decide

/-- Lower-casing preserves digit-ness. -/
theorem isDigit_jsToLower (c : Char) : (jsToLower c).isDigit = c.isDigit := by
  unfold jsToLower
  split <;> rfl

/-- If `dropWhile p` produces a cons, its head refutes `p`. -/
theorem dropWhile_head_false {p : Char → Bool} {l r : List Char} {c : Char}
    (h : l.dropWhile p = c :: r) : p c = false := by
  induction l with
  | nil => simp at h
  | cons a t ih =>
    rw [List.dropWhile_cons] at h
    by_cases hp : p a
    · rw [if_pos hp] at h
      exact ih h
    · rw [if_neg hp] at h
      injection h with h1 _
      rw [← h1]
      exact Bool.eq_false_iff.mpr hp

set_option maxRecDepth 10000 in
/-- C9: `parseApproxAnnualCost` on the documented examples; it returns
`null` exactly when no numeric token matches or the `Number` parse of the
matched token overflows (the `!Number.isFinite` early return), and the
token match fails exactly when the input has no digit.  A 309-digit
integer part exceeds the binary64 overflow threshold, so the parse-fails
branch is reachable: the all-nines 309-digit input returns `null`. -/
theorem C9_parseApproxAnnualCost_spec :
    parseApproxAnnualCost "$19k/yr" = some 19000 ∧
    parseApproxAnnualCost "4,200" = some 4200 ∧
    parseApproxAnnualCost "no idea" = none ∧
    parseApproxAnnualCost (String.mk (List.replicate 309 (Char.ofNat 57))) = none ∧
    (∀ text : String,
      (approxCostGroups text = none ↔ ∀ c ∈ text.toList, c.isDigit = false)) ∧
    (∀ text : String,
      (parseApproxAnnualCost text = none ↔
        approxCostGroups text = none ∨
        ∃ g, approxCostGroups text = some g ∧ jsNumOverflows g.1 g.2.1 = true)) := by
  refine ⟨by decide, by decide, by decide, by decide, fun text => ?_, fun text => ?_⟩
  · unfold approxCostGroups
    have hlist : (lowerStr (trimStr text)).toList = (trimList text.toList).map jsToLower := rfl
    rw [hlist]
    cases hX : ((trimList text.toList).map jsToLower).dropWhile (fun c => !c.isDigit) with
    | nil =>
      simp only [hX]
      constructor
      · intro _ c hc
        have hall : ∀ c ∈ (trimList text.toList).map jsToLower, (!c.isDigit) = true :=
          List.dropWhile_eq_nil_iff.mp hX
        rcases mem_trimList_or (l := text.toList) hc with htr | hws
        · have : jsToLower c ∈ (trimList text.toList).map jsToLower :=
            List.mem_map_of_mem jsToLower htr
          have := hall _ this
          rw [isDigit_jsToLower] at this
          simpa using this
        · exact jsIsWs_not_digit hws
      · intro _
        trivial
    | cons d rest =>
      simp only [hX]
      constructor
      · intro hcontra
        cases hcontra
      · intro hnone
        exfalso
        have hd : d ∈ (trimList text.toList).map jsToLower := by
          apply mem_of_mem_dropWhile (p := fun c => !c.isDigit)
          rw [hX]
          exact List.mem_cons_self d rest
        have hdig : d.isDigit = true := by
          have := dropWhile_head_false hX
          simpa using this
        rcases List.mem_map.mp hd with ⟨e, he, rfl⟩
        rw [isDigit_jsToLower] at hdig
        have := hnone e (mem_of_mem_trimList he)
        rw [this] at hdig
        cases hdig
  · cases hg : approxCostGroups text with
    | none =>
      simp [parseApproxAnnualCost, hg]
    | some g =>
      simp only [parseApproxAnnualCost, hg]
      rcases Bool.eq_false_or_eq_true (jsNumOverflows g.1 g.2.1) with hov | hov
      · rw [if_pos hov]
        exact ⟨fun _ => Or.inr ⟨g, rfl, hov⟩, fun _ => rfl⟩
      · rw [if_neg (by simp [hov])]
        constructor
        · intro hcontra
          cases hcontra
        · intro h
          rcases h with h | ⟨g2, hg2, hov2⟩
          · cases h
          · have hgg : g2 = g := by
              injection hg2 with h2
              exact h2.symm
            rw [hgg, hov] at hov2
            cases hov2

/-- C8 counterexample: on the very scenario given in the spec (Figma with four plans,
Notion with two), "mid tier for Figma and Notion" gives Figma *two*
suggestions (the pair adjacent to the midpoint of its even-length plan
list), not the single "true middle" the claim asserts. -/
theorem C8_counterexample :
    ((mapTierSuggestions midTierScenarioBenchmarks "mid tier for Figma and Notion"
        ["Figma", "Notion"]).bind fun s => lookupAssoc s "Figma") =
      some ["Professional", "Organization"] ∧
    (((mapTierSuggestions midTierScenarioBenchmarks "mid tier for Figma and Notion"
        ["Figma", "Notion"]).bind fun s => lookupAssoc s "Figma").map List.length ≠
      some 1) := by
  constructor
  · decide
  · decide

/-- C8 amended: `top` maps to the last plan and `low` to the first; `mid`
maps to the single middle plan for an odd-length list and to the two plans
adjacent to the midpoint for a non-empty even-length list.  Consequently
the scenario message yields the two middle plans for Figma (four plans)
and both options for Notion (two plans). -/
theorem C8_tier_suggestions :
    (∀ (plans : List String) (h : plans ≠ []),
        suggestionForIntent plans TierIntent.top = [plans.getLast h] ∧
        suggestionForIntent plans TierIntent.low = [plans.head h]) ∧
    (∀ plans : List String, plans.length % 2 = 1 →
        suggestionForIntent plans TierIntent.mid =
          [(plans.get? (plans.length / 2)).getD ""]) ∧
    (∀ plans : List String, 0 < plans.length → plans.length % 2 = 0 →
        suggestionForIntent plans TierIntent.mid =
          [(plans.get? (plans.length / 2 - 1)).getD "",
           (plans.get? (plans.length / 2)).getD ""]) ∧
    (mapTierSuggestions midTierScenarioBenchmarks "mid tier for Figma and Notion"
        ["Figma", "Notion"] =
      some [("Figma", ["Professional", "Organization"]), ("Notion", ["Plus", "Business"])]) := by
  refine ⟨fun plans h => ⟨?_, ?_⟩, fun plans hodd => ?_, fun plans hpos heven => ?_, by decide⟩
  · show (match plans.getLast? with | some p => [p] | none => []) = [plans.getLast h]
    rw [List.getLast?_eq_getLast plans h]
  · show (match plans.head? with | some p => [p] | none => []) = [plans.head h]
    rw [List.head?_eq_head h]
  · show middlePlanCandidates plans = [(plans.get? (plans.length / 2)).getD ""]
    unfold middlePlanCandidates
    rcases plans with _ | ⟨a, _ | ⟨b, t⟩⟩
    · simp at hodd
    · simp
    · simp only [List.length_cons] at hodd ⊢
      have h3 : ¬ (t.length + 1 + 1 == 0) = true := by simp
      have h2 : ¬ (decide (t.length + 1 + 1 ≤ 2)) = true := by
        simp only [decide_eq_true_eq]
        omega
      rw [if_neg h3, if_neg h2, if_pos (by simpa using hodd)]
      rw [List.getD_eq_get?]
  · show middlePlanCandidates plans = _
    unfold middlePlanCandidates
    rcases plans with _ | ⟨a, _ | ⟨b, t⟩⟩
    · simp at hpos
    · simp at heven
    · simp only [List.length_cons] at heven ⊢
      by_cases hsmall : t.length + 1 + 1 ≤ 2
      · have ht : t = [] := by
          rcases t with _ | _
          · rfl
          · simp at hsmall
        subst ht
        simp
      · have h3 : ¬ (t.length + 1 + 1 == 0) = true := by simp
        have h2 : ¬ (decide (t.length + 1 + 1 ≤ 2)) = true := by
          simp only [decide_eq_true_eq]
          omega
        have hnodd : ¬ ((t.length + 1 + 1) % 2 == 1) = true := by
          simp only [beq_iff_eq]
          omega
        rw [if_neg h3, if_neg h2, if_neg hnodd]
        rw [List.getD_eq_get?, List.getD_eq_get?]

/-- Witness for the amended C8 theorem at concrete plan lists. -/
theorem C8_tier_suggestions_witness :
    suggestionForIntent ["A", "B", "C"] TierIntent.top = ["C"] ∧
    suggestionForIntent ["A", "B", "C"] TierIntent.low = ["A"] ∧
    suggestionForIntent ["A", "B", "C"] TierIntent.mid = ["B"] ∧
    suggestionForIntent ["A", "B", "C", "D"] TierIntent.mid = ["B", "C"] := by
  refine ⟨?_, ?_, ?_, ?_⟩
  · exact (C8_tier_suggestions.1 ["A", "B", "C"] (by simp)).1
  · exact (C8_tier_suggestions.1 ["A", "B", "C"] (by simp)).2
  · exact C8_tier_suggestions.2.1 ["A", "B", "C"] (by decide)
  · exact C8_tier_suggestions.2.2.1 ["A", "B", "C", "D"] (by decide) (by decide)

/-- C6: from `ready` (and from a negative reply in `confirm_more`, which
first persists `ready`), a successful advisory call persists `briefed` and
returns the brief; a failed advisory call emits the fallback reply and
leaves the persisted stage at `ready`, so a retry resumes from the same
state. -/
theorem C6_advisory_failure_keeps_ready :
    ∀ (bs : List SaaSBenchmark) (state : IntakeState) (msg : String) (o : TurnOracle),
      looksLikeListRequest msg = false →
      ((state.stage = Stage.ready →
        (o.advisorOk = true →
          intakeTurn bs state msg o =
            ({ state with stage := Stage.briefed }, TurnReply.brief)) ∧
        (o.advisorOk = false →
          intakeTurn bs state msg o =
            (state, TurnReply.advisorFallback state.lineItems) ∧
          (intakeTurn bs state msg o).1.stage = Stage.ready)) ∧
       (state.stage = Stage.confirm_more → isAffirmative msg = false → isNegative msg = true →
        (o.advisorOk = true →
          intakeTurn bs state msg o =
            ({ state with stage := Stage.briefed }, TurnReply.brief)) ∧
        (o.advisorOk = false →
          intakeTurn bs state msg o =
            ({ state with stage := Stage.ready },
              TurnReply.advisorFallback state.lineItems)))) := by
  intro bs state msg o hlist
  constructor
  · intro hstage
    constructor
    · intro hok
      simp [intakeTurn, hlist, hstage, hok]
    · intro hfail
      have hres : intakeTurn bs state msg o =
          (state, TurnReply.advisorFallback state.lineItems) := by
        simp [intakeTurn, hlist, hstage, hfail]
      exact ⟨hres, by rw [hres]; exact hstage⟩
  · intro hstage haff hneg
    constructor
    · intro hok
      simp [intakeTurn, hlist, hstage, haff, hneg, hok]
    · intro hfail
      simp [intakeTurn, hlist, hstage, haff, hneg, hfail]

/-- Witness for C6: concrete `ready` and `confirm_more` states, with the
advisory call failing and succeeding. -/
theorem C6_advisory_failure_keeps_ready_witness :
    (intakeTurn SAAS_BENCHMARKS
        { lineItems := [{ tool := "Figma" }], planSuggestions := [], stage := Stage.ready }
        "try again" { extraction := none, advisorOk := false, userId := false }).1.stage =
      Stage.ready ∧
    intakeTurn SAAS_BENCHMARKS
        { lineItems := [{ tool := "Figma" }], planSuggestions := [], stage := Stage.ready }
        "try again" { extraction := none, advisorOk := true, userId := false } =
      ({ lineItems := [{ tool := "Figma" }], planSuggestions := [], stage := Stage.briefed },
        TurnReply.brief) ∧
    intakeTurn SAAS_BENCHMARKS
        { lineItems := [{ tool := "Figma" }], planSuggestions := [], stage := Stage.confirm_more }
        "nope" { extraction := none, advisorOk := false, userId := false } =
      ({ lineItems := [{ tool := "Figma" }], planSuggestions := [], stage := Stage.ready },
        TurnReply.advisorFallback [{ tool := "Figma" }]) := by
  refine ⟨?_, ?_, ?_⟩
  · exact ((C6_advisory_failure_keeps_ready SAAS_BENCHMARKS
      { lineItems := [{ tool := "Figma" }], planSuggestions := [], stage := Stage.ready }
      "try again" { extraction := none, advisorOk := false, userId := false }
      (by decide)).1 rfl).2 rfl |>.2
  · exact ((C6_advisory_failure_keeps_ready SAAS_BENCHMARKS
      { lineItems := [{ tool := "Figma" }], planSuggestions := [], stage := Stage.ready }
      "try again" { extraction := none, advisorOk := true, userId := false }
      (by decide)).1 rfl).1 rfl
  · exact ((C6_advisory_failure_keeps_ready SAAS_BENCHMARKS
      { lineItems := [{ tool := "Figma" }], planSuggestions := [], stage := Stage.confirm_more }
      "nope" { extraction := none, advisorOk := false, userId := false }
      (by decide)).2 rfl (by decide) (by decide)).2 rfl

/-- C5 counterexample, refuting two clauses of the claim.  First, in
`confirm_plans` a "correct" reply with one singleton and one ambiguous
suggestion does *not* fill the unambiguous tool — the state is returned
untouched and only the ambiguous tool is re-asked.  Second, a reply of
"looks good" — which per the claim is neither of the confirmation words
nor a plan choice, so should re-prompt without changing the line items —
is accepted by the code as a confirmation and fills the suggested plan,
changing the line items. -/
theorem C5_counterexample :
    confirmPlansTurn
        { lineItems := [{ tool := "Alpha" }, { tool := "Beta" }]
          planSuggestions := [("Alpha", ["Pro"]), ("Beta", ["X", "Y"])]
          stage := Stage.confirm_plans } "correct" =
      ({ lineItems := [{ tool := "Alpha" }, { tool := "Beta" }]
         planSuggestions := [("Alpha", ["Pro"]), ("Beta", ["X", "Y"])]
         stage := Stage.confirm_plans },
        TurnReply.stillNeedPlans [("Beta", ["X", "Y"])]) ∧
    ((confirmPlansTurn
        { lineItems := [{ tool := "Alpha" }, { tool := "Beta" }]
          planSuggestions := [("Alpha", ["Pro"]), ("Beta", ["X", "Y"])]
          stage := Stage.confirm_plans } "correct").1.lineItems.head?.map
      fun it => it.plan) = some none ∧
    confirmPlansTurn
        { lineItems := [{ tool := "Alpha" }]
          planSuggestions := [("Alpha", ["Pro"])]
          stage := Stage.confirm_plans } "looks good" =
      ({ lineItems := [{ tool := "Alpha", plan := some "Pro" }]
         planSuggestions := []
         stage := Stage.collect }, TurnReply.missingPricePrompt ["Alpha"]) := by
  refine ⟨?_, ?_, ?_⟩
  · decide
  · decide
  · decide

/-- C5 amended: the code accepts three confirmation replies — "correct",
"looks good" and "yes" (trimmed, case-insensitively).  On any of the
three, when *every* suggestion list is a singleton the planless items
with a suggestion are filled (others kept), suggestions are cleared and
the stage returns to `collect`; when any list is not a singleton, the
state is unchanged and exactly the non-singleton tools are re-asked.  On
any reply that is none of the three: if exactly one tool has a two-option
list and the reply case-insensitively equals one of its options, the plan
of that tool is set; otherwise the state is unchanged and a generic
re-prompt is sent. -/
theorem C5_confirm_plans_behavior :
    ∀ (state : IntakeState) (msg : String),
      ((lowerStr (trimStr msg) = "correct" ∨ lowerStr (trimStr msg) = "looks good" ∨
          lowerStr (trimStr msg) = "yes") →
        ((∀ e ∈ state.planSuggestions, e.2.length = 1) →
          (confirmPlansTurn state msg).1.stage = Stage.collect ∧
          (confirmPlansTurn state msg).1.planSuggestions = [] ∧
          (confirmPlansTurn state msg).1.lineItems.length = state.lineItems.length ∧
          (∀ (i : Nat) (item : LineItem) (p : String),
            state.lineItems.get? i = some item → jsFalsyStr item.plan = true →
            lookupAssoc state.planSuggestions item.tool = some [p] →
            (confirmPlansTurn state msg).1.lineItems.get? i =
              some { item with plan := some p }) ∧
          (∀ (i : Nat) (item : LineItem),
            state.lineItems.get? i = some item →
            (jsFalsyStr item.plan = false ∨
              lookupAssoc state.planSuggestions item.tool = none) →
            (confirmPlansTurn state msg).1.lineItems.get? i = some item)) ∧
        ((state.planSuggestions.filter fun e => e.2.length ≠ 1) ≠ [] →
          confirmPlansTurn state msg =
            (state, TurnReply.stillNeedPlans
              (state.planSuggestions.filter fun e => e.2.length ≠ 1)))) ∧
      (lowerStr (trimStr msg) ≠ "correct" → lowerStr (trimStr msg) ≠ "looks good" →
        lowerStr (trimStr msg) ≠ "yes" →
        (∀ (tool : String) (options : List String) (chosen : String),
          (state.planSuggestions.filter fun e => e.2.length == 2) = [(tool, options)] →
          options.find? (fun o => lowerStr o == lowerStr (trimStr msg)) = some chosen →
          (confirmPlansTurn state msg).1 =
            { state with
                lineItems := fillChosenPlan tool chosen state.lineItems
                planSuggestions := []
                stage := Stage.collect }) ∧
        ((state.planSuggestions.filter fun e => e.2.length == 2).length ≠ 1 →
          confirmPlansTurn state msg = (state, TurnReply.planChoicePrompt)) ∧
        (∀ (tool : String) (options : List String),
          (state.planSuggestions.filter fun e => e.2.length == 2) = [(tool, options)] →
          options.find? (fun o => lowerStr o == lowerStr (trimStr msg)) = none →
          confirmPlansTurn state msg = (state, TurnReply.planChoicePrompt))) := by
  intro state msg
  constructor
  · intro hnorm
    have hcond : (lowerStr (trimStr msg) == "correct" ||
        lowerStr (trimStr msg) == "looks good" || lowerStr (trimStr msg) == "yes") = true := by
      rcases hnorm with h | h | h <;> simp [h]
    constructor
    · intro hall
      have hamb : (state.planSuggestions.filter fun e => e.2.length ≠ 1) = [] := by
        rw [List.filter_eq_nil_iff]
        intro e he
        simp [hall e he]
      have hempty : (state.planSuggestions.filter fun e => e.2.length ≠ 1).isEmpty = true := by
        rw [hamb]
        rfl
      have hres : (confirmPlansTurn state msg).1 =
          { state with
              lineItems := fillSuggestedPlans state.planSuggestions state.lineItems
              planSuggestions := []
              stage := Stage.collect } := by
        simp only [confirmPlansTurn, hcond, hempty]
        simp
      refine ⟨by rw [hres], by rw [hres], ?_, ?_, ?_⟩
      · rw [hres]
        simp [fillSuggestedPlans]
      · intro i item p hget hfalsy hlook
        rw [hres]
        show (fillSuggestedPlans state.planSuggestions state.lineItems).get? i = _
        unfold fillSuggestedPlans
        rw [List.get?_map, hget]
        simp [hlook, hfalsy]
      · intro i item hget hcase
        rw [hres]
        show (fillSuggestedPlans state.planSuggestions state.lineItems).get? i = _
        unfold fillSuggestedPlans
        rw [List.get?_map, hget]
        rcases hcase with h | h
        · cases hlook : lookupAssoc state.planSuggestions item.tool with
          | none => simp [hlook]
          | some options => simp [hlook, h]
        · simp [h]
    · intro hne
      have hfalse : (state.planSuggestions.filter fun e => e.2.length ≠ 1).isEmpty = false := by
        cases hfil : (state.planSuggestions.filter fun e => e.2.length ≠ 1) with
        | nil => exact absurd hfil hne
        | cons a t => rfl
      simp only [confirmPlansTurn, hcond, hfalse]
      simp
  · intro h1 h2 h3
    have hcond : (lowerStr (trimStr msg) == "correct" ||
        lowerStr (trimStr msg) == "looks good" || lowerStr (trimStr msg) == "yes") = false := by
      simp [h1, h2, h3]
    refine ⟨fun tool options chosen hfil hfind => ?_, fun hlen => ?_,
      fun tool options hfil hfind => ?_⟩
    · simp [confirmPlansTurn, hcond, hfil, hfind]
    · cases hfil : (state.planSuggestions.filter fun e => e.2.length == 2) with
      | nil => simp [confirmPlansTurn, hcond, hfil]
      | cons a t =>
        cases t with
        | nil =>
          rw [hfil] at hlen
          simp at hlen
        | cons b t2 => simp [confirmPlansTurn, hcond, hfil]
    · simp [confirmPlansTurn, hcond, hfil, hfind]

/-- Witness for the amended C5 theorem at concrete states: a full fill on
"correct", a full fill on "looks good", the ambiguous re-ask, a plan-name
resolution, and the generic re-prompt. -/
theorem C5_confirm_plans_behavior_witness :
    (confirmPlansTurn
        { lineItems := [{ tool := "Alpha" }], planSuggestions := [("Alpha", ["Pro"])]
          stage := Stage.confirm_plans } "correct").1.lineItems.get? 0 =
      some { tool := "Alpha", plan := some "Pro" } ∧
    (confirmPlansTurn
        { lineItems := [{ tool := "Gamma" }], planSuggestions := [("Gamma", ["Team"])]
          stage := Stage.confirm_plans } "Looks Good").1.lineItems.get? 0 =
      some { tool := "Gamma", plan := some "Team" } ∧
    confirmPlansTurn
        { lineItems := [{ tool := "Alpha" }, { tool := "Beta" }]
          planSuggestions := [("Alpha", ["Pro"]), ("Beta", ["X", "Y"])]
          stage := Stage.confirm_plans } "yes" =
      ({ lineItems := [{ tool := "Alpha" }, { tool := "Beta" }]
         planSuggestions := [("Alpha", ["Pro"]), ("Beta", ["X", "Y"])]
         stage := Stage.confirm_plans },
        TurnReply.stillNeedPlans [("Beta", ["X", "Y"])]) ∧
    (confirmPlansTurn
        { lineItems := [{ tool := "Beta" }], planSuggestions := [("Beta", ["X", "Y"])]
          stage := Stage.confirm_plans } "x").1 =
      { lineItems := fillChosenPlan "Beta" "X" [{ tool := "Beta" }]
        planSuggestions := []
        stage := Stage.collect } ∧
    confirmPlansTurn
        { lineItems := [{ tool := "Beta" }], planSuggestions := [("Beta", ["X", "Y"])]
          stage := Stage.confirm_plans } "bogus" =
      ({ lineItems := [{ tool := "Beta" }], planSuggestions := [("Beta", ["X", "Y"])]
         stage := Stage.confirm_plans }, TurnReply.planChoicePrompt) := by
  refine ⟨?_, ?_, ?_, ?_, ?_⟩
  · exact (((C5_confirm_plans_behavior
      { lineItems := [{ tool := "Alpha" }], planSuggestions := [("Alpha", ["Pro"])]
        stage := Stage.confirm_plans } "correct").1 (Or.inl (by decide))).1
      (by decide)).2.2.2.1 0 { tool := "Alpha" } "Pro" rfl rfl rfl
  · exact (((C5_confirm_plans_behavior
      { lineItems := [{ tool := "Gamma" }], planSuggestions := [("Gamma", ["Team"])]
        stage := Stage.confirm_plans } "Looks Good").1 (Or.inr (Or.inl (by decide)))).1
      (by decide)).2.2.2.1 0 { tool := "Gamma" } "Team" rfl rfl rfl
  · exact (((C5_confirm_plans_behavior
      { lineItems := [{ tool := "Alpha" }, { tool := "Beta" }]
        planSuggestions := [("Alpha", ["Pro"]), ("Beta", ["X", "Y"])]
        stage := Stage.confirm_plans } "yes").1 (Or.inr (by decide))).2 (by decide))
  · exact ((C5_confirm_plans_behavior
      { lineItems := [{ tool := "Beta" }], planSuggestions := [("Beta", ["X", "Y"])]
        stage := Stage.confirm_plans } "x").2 (by decide) (by decide) (by decide)).1
      "Beta" ["X", "Y"] "X" (by decide) (by decide)
  · exact ((C5_confirm_plans_behavior
      { lineItems := [{ tool := "Beta" }], planSuggestions := [("Beta", ["X", "Y"])]
        stage := Stage.confirm_plans } "bogus").2 (by decide) (by decide) (by decide)).2.2
      "Beta" ["X", "Y"] (by decide) (by decide)

/-- A successful index lookup returns a binding of the association list. -/
theorem lookupIdx_mem {idx : List (String × Nat)} {k : String} {i : Nat}
    (h : lookupIdx idx k = some i) : (k, i) ∈ idx := by
  induction idx with
  | nil => simp [lookupIdx] at h
  | cons e rest ih =>
    rcases e with ⟨k0, v0⟩
    by_cases hk : k0 == k
    · rw [lookupIdx, if_pos hk] at h
      injection h with h1
      subst h1
      have : k0 = k := by simpa using hk
      subst this
      exact List.mem_cons_self _ _
    · rw [lookupIdx, if_neg hk] at h
      exact List.mem_cons_of_mem _ (ih h)

/-- Characterisation of the bindings produced by `buildIndexFrom`. -/
theorem mem_buildIndexFrom (items : List LineItem) :
    ∀ (i0 : Nat) (acc : List (String × Nat)) (p : String × Nat),
      p ∈ buildIndexFrom i0 items acc ↔
        p ∈ acc ∨ ∃ (j : Nat) (it : LineItem), items.get? j = some it ∧
          p = (normalizeToolName it.tool, i0 + j) := by
  induction items with
  | nil =>
    intro i0 acc p
    simp [buildIndexFrom]
  | cons it rest ih =>
    intro i0 acc p
    rw [buildIndexFrom, ih]
    constructor
    · rintro (hmem | ⟨j, it2, hget, rfl⟩)
      · rcases List.mem_cons.mp hmem with rfl | hacc
        · exact Or.inr ⟨0, it, rfl, by simp⟩
        · exact Or.inl hacc
      · exact Or.inr ⟨j + 1, it2, hget, by simp [Nat.add_assoc, Nat.add_comm 1 j]⟩
    · rintro (hacc | ⟨j, it2, hget, rfl⟩)
      · exact Or.inl (List.mem_cons_of_mem _ hacc)
      · cases j with
        | zero =>
          injection hget with h1
          subst h1
          exact Or.inl (List.mem_cons_self _ _)
        | succ j2 =>
          refine Or.inr ⟨j2, it2, hget, ?_⟩
          simp [Nat.add_assoc, Nat.add_comm 1 j2]

/-- The definition `mergeStep` when the candidate key is new: append and index it. -/
theorem mergeStep_lookup_none {bs : List SaaSBenchmark} {merged : List LineItem}
    {idx : List (String × Nat)} {c : LineItem}
    (h : lookupIdx idx (normalizeToolName (canonicalToolName bs c.tool)) = none) :
    mergeStep bs (merged, idx) c =
      (merged ++ [{ c with tool := canonicalToolName bs c.tool }],
        (normalizeToolName (canonicalToolName bs c.tool), merged.length) :: idx) := by
  simp [mergeStep, h]

/-- The definition `mergeStep` when the key resolves to an occupied position: set-merge. -/
theorem mergeStep_lookup_set {bs : List SaaSBenchmark} {merged : List LineItem}
    {idx : List (String × Nat)} {c current : LineItem} {i : Nat}
    (h : lookupIdx idx (normalizeToolName (canonicalToolName bs c.tool)) = some i)
    (h2 : merged.get? i = some current) :
    mergeStep bs (merged, idx) c = (merged.set i (mergeFields current c), idx) := by
  rw [List.get?_eq_getElem?] at h2
  simp [mergeStep, h, h2]

/-- The definition `mergeStep` when the key resolves out of range (unreachable in the
program): no-op. -/
theorem mergeStep_lookup_miss {bs : List SaaSBenchmark} {merged : List LineItem}
    {idx : List (String × Nat)} {c : LineItem} {i : Nat}
    (h : lookupIdx idx (normalizeToolName (canonicalToolName bs c.tool)) = some i)
    (h2 : merged.get? i = none) :
    mergeStep bs (merged, idx) c = (merged, idx) := by
  rw [List.get?_eq_getElem?] at h2
  simp [mergeStep, h, h2]

/-- The merge loop never shrinks the working list. -/
theorem mergeFold_length (bs : List SaaSBenchmark) (incoming : List LineItem) :
    ∀ (merged : List LineItem) (idx : List (String × Nat)),
      merged.length ≤ (incoming.foldl (mergeStep bs) (merged, idx)).1.length := by
  induction incoming with
  | nil => intro merged idx; simp
  | cons c cs ih =>
    intro merged idx
    rw [List.foldl_cons]
    cases hlook : lookupIdx idx (normalizeToolName (canonicalToolName bs c.tool)) with
    | none =>
      rw [mergeStep_lookup_none hlook]
      calc merged.length
          ≤ (merged ++ [{ c with tool := canonicalToolName bs c.tool }]).length := by simp
        _ ≤ _ := ih _ _
    | some i =>
      cases hcur : merged.get? i with
      | none =>
        rw [mergeStep_lookup_miss hlook hcur]
        exact ih merged idx
      | some current =>
        rw [mergeStep_lookup_set hlook hcur]
        calc merged.length = (merged.set i (mergeFields current c)).length := by simp
          _ ≤ _ := ih _ _

/-- Frame invariant of the merge loop: a position whose (canonical,
lower-cased) tool key is hit by no incoming candidate keeps its item. -/
theorem mergeFold_frame (bs : List SaaSBenchmark) (incoming : List LineItem) :
    ∀ (merged : List LineItem) (idx : List (String × Nat)) (j : Nat) (target : LineItem),
      merged.get? j = some target →
      (∀ (k : String) (i : Nat), (k, i) ∈ idx → i = j → k = normalizeToolName target.tool) →
      (∀ c ∈ incoming,
        normalizeToolName (canonicalToolName bs c.tool) ≠ normalizeToolName target.tool) →
      (incoming.foldl (mergeStep bs) (merged, idx)).1.get? j = some target := by
  induction incoming with
  | nil =>
    intro merged idx j target hget _ _
    simpa using hget
  | cons c cs ih =>
    intro merged idx j target hget hidx hkeys
    have hjlt : j < merged.length := by
      rcases List.get?_eq_some.mp hget with ⟨h, _⟩
      exact h
    have hckey : normalizeToolName (canonicalToolName bs c.tool) ≠
        normalizeToolName target.tool := hkeys c (List.mem_cons_self _ _)
    have hcs : ∀ c2 ∈ cs,
        normalizeToolName (canonicalToolName bs c2.tool) ≠ normalizeToolName target.tool :=
      fun c2 h2 => hkeys c2 (List.mem_cons_of_mem _ h2)
    rw [List.foldl_cons]
    cases hlook : lookupIdx idx (normalizeToolName (canonicalToolName bs c.tool)) with
    | none =>
      rw [mergeStep_lookup_none hlook]
      apply ih
      · rw [List.get?_append hjlt]
        exact hget
      · intro k i hmem hij
        rcases List.mem_cons.mp hmem with heq | hold
        · exfalso
          injection heq with hk hi
          omega
        · exact hidx k i hold hij
      · exact hcs
    | some i =>
      cases hcur : merged.get? i with
      | none =>
        rw [mergeStep_lookup_miss hlook hcur]
        exact ih merged idx j target hget hidx hcs
      | some current =>
        rw [mergeStep_lookup_set hlook hcur]
        apply ih
        · have hij : i ≠ j := by
            intro hij
            exact hckey (hidx _ i (lookupIdx_mem hlook) hij)
          rw [List.get?_set_ne _ _ hij]
          exact hget
        · exact hidx
        · exact hcs

/-- C10: every existing item whose canonical tool key is matched by no
incoming item keeps its original position, with only its tool field
canonicalized; and the merge result is never shorter than the existing
list. -/
theorem C10_merge_frame :
    ∀ (bs : List SaaSBenchmark) (existing incoming : List LineItem),
      (∀ (j : Nat) (item : LineItem),
        existing.get? j = some item →
        (∀ c ∈ incoming,
          normalizeToolName (canonicalToolName bs c.tool) ≠
            normalizeToolName (canonicalToolName bs item.tool)) →
        (mergeLineItems bs existing incoming).get? j =
          some { item with tool := canonicalToolName bs item.tool }) ∧
      existing.length ≤ (mergeLineItems bs existing incoming).length := by
  intro bs existing incoming
  constructor
  · intro j item hget hkeys
    have hstart :
        (existing.map fun it => { it with tool := canonicalToolName bs it.tool }).get? j =
          some { item with tool := canonicalToolName bs item.tool } := by
      rw [List.get?_map, hget]
      rfl
    unfold mergeLineItems
    simp only
    refine mergeFold_frame bs incoming _ _ j _ hstart ?_ ?_
    · intro k i hmem hij
      rcases (mem_buildIndexFrom _ 0 [] (k, i)).mp hmem with hnil | ⟨j2, it2, hget2, heq⟩
      · simp at hnil
      · injection heq with hk hi
        have hj2 : j2 = j := by omega
        subst hj2
        rw [hstart] at hget2
        injection hget2 with h2
        rw [hk, ← h2]
    · exact hkeys
  · unfold mergeLineItems
    simp only
    calc existing.length
        = (existing.map fun it => { it with tool := canonicalToolName bs it.tool }).length := by
          simp
      _ ≤ _ := mergeFold_length bs incoming _ _

/-- Witness for C10: an existing Figma item is untouched (up to
canonicalization) by an incoming Slack item. -/
theorem C10_merge_frame_witness :
    (mergeLineItems SAAS_BENCHMARKS
        [{ tool := "figma", seats := some 10 }]
        [{ tool := "slack", plan := some "Pro" }]).get? 0 =
      some { tool := "Figma", seats := some 10 } := by
  exact (C10_merge_frame SAAS_BENCHMARKS [{ tool := "figma", seats := some 10 }]
    [{ tool := "slack", plan := some "Pro" }]).1 0 { tool := "figma", seats := some 10 }
    rfl (by decide)

/-- The definition `dropWhile` is idempotent. -/
theorem dropWhile_idem (p : Char → Bool) (l : List Char) :
    (l.dropWhile p).dropWhile p = l.dropWhile p := by
  induction l with
  | nil => rfl
  | cons a t ih =>
    by_cases hp : p a
    · simp [List.dropWhile_cons, hp, ih]
    · simp [List.dropWhile_cons, hp]

/-- Appending a non-whitespace character commutes with a leading
whitespace drop. -/
theorem dropWhile_append_last {c : Char} (hc : jsIsWs c = false) (xs : List Char) :
    (xs ++ [c]).dropWhile jsIsWs = xs.dropWhile jsIsWs ++ [c] := by
  induction xs with
  | nil =>
    simp [List.dropWhile_cons, hc]
  | cons a t ih =>
    by_cases hp : jsIsWs a
    · rw [List.cons_append, List.dropWhile_cons, if_pos hp, List.dropWhile_cons, if_pos hp]
      exact ih
    · rw [List.cons_append, List.dropWhile_cons, if_neg hp, List.dropWhile_cons, if_neg hp,
        List.cons_append]

/-- Trailing trim is idempotent. -/
theorem dropTrailWs_idem (l : List Char) : dropTrailWs (dropTrailWs l) = dropTrailWs l := by
  unfold dropTrailWs
  rw [List.reverse_reverse, dropWhile_idem]

/-- A list starting with a non-whitespace character (or empty) keeps its
head through a trailing trim. -/
theorem dropTrailWs_cons {c : Char} (hc : jsIsWs c = false) (t : List Char) :
    dropTrailWs (c :: t) = c :: dropTrailWs t := by
  unfold dropTrailWs
  rw [List.reverse_cons, dropWhile_append_last hc, List.reverse_append]
  rfl

/-- The trimmed list has no leading whitespace. -/
theorem dropLeadWs_trimList (l : List Char) : dropLeadWs (trimList l) = trimList l := by
  unfold trimList
  cases hm : dropLeadWs l with
  | nil =>
    unfold dropTrailWs
    rfl
  | cons c t =>
    have hc : jsIsWs c = false := dropWhile_head_false hm
    rw [dropTrailWs_cons hc]
    unfold dropLeadWs
    rw [List.dropWhile_cons, if_neg (by simp [hc])]

/-- The definition `trim` is idempotent. -/
theorem trimList_idem (l : List Char) : trimList (trimList l) = trimList l := by
  conv_lhs => rw [trimList]
  rw [dropLeadWs_trimList]
  show dropTrailWs (dropTrailWs (dropLeadWs l)) = _
  rw [dropTrailWs_idem]
  rfl

/-- Lower-casing preserves whitespace-ness. -/
theorem jsIsWs_jsToLower (c : Char) : jsIsWs (jsToLower c) = jsIsWs c := by
  unfold jsToLower
  split <;> rfl

/-- Lower-casing commutes with trimming. -/
theorem trimList_map_jsToLower (l : List Char) :
    trimList (l.map jsToLower) = (trimList l).map jsToLower := by
  have hdrop : ∀ m : List Char,
      (m.map jsToLower).dropWhile jsIsWs = (m.dropWhile jsIsWs).map jsToLower := by
    intro m
    rw [List.dropWhile_map]
    have hfun : (jsIsWs ∘ jsToLower) = jsIsWs := funext jsIsWs_jsToLower
    rw [hfun]
  unfold trimList dropTrailWs dropLeadWs
  rw [hdrop l, ← List.map_reverse, hdrop, ← List.map_reverse]

/-- The definition `trimStr` is idempotent. -/
theorem trimStr_idem (s : String) : trimStr (trimStr s) = trimStr s := by
  unfold trimStr
  exact congrArg String.mk (trimList_idem s.toList)

/-- The benchmark resolver is invariant under pre-trimming its query. -/
theorem findBenchmarkForTool_trim (bs : List SaaSBenchmark) (t : String) :
    findBenchmarkForTool bs (trimStr t) = findBenchmarkForTool bs t := by
  unfold findBenchmarkForTool
  have hnorm : trimStr (lowerStr (trimStr t)) = trimStr (lowerStr t) := by
    unfold trimStr lowerStr
    apply congrArg String.mk
    show trimList ((trimList t.toList).map jsToLower) = trimList (t.toList.map jsToLower)
    rw [← trimList_map_jsToLower, trimList_idem, trimList_map_jsToLower]
  rw [hnorm]

/-- When the canonical name of every benchmark is itself canonical,
`canonicalToolName` is idempotent. -/
theorem canonicalToolName_idem (bs : List SaaSBenchmark)
    (hbs : ∀ b ∈ bs, canonicalToolName bs b.tool = b.tool) (t : String) :
    canonicalToolName bs (canonicalToolName bs t) = canonicalToolName bs t := by
  cases hfind : findBenchmarkForTool bs t with
  | some b =>
    have h1 : canonicalToolName bs t = b.tool := by
      unfold canonicalToolName
      rw [hfind]
    rw [h1]
    exact hbs b (List.mem_of_find?_eq_some hfind)
  | none =>
    have h1 : canonicalToolName bs t = trimStr t := by
      unfold canonicalToolName
      rw [hfind]
    rw [h1]
    have h2 : findBenchmarkForTool bs (trimStr t) = none := by
      rw [findBenchmarkForTool_trim]
      exact hfind
    unfold canonicalToolName
    rw [h2]
    exact trimStr_idem t

/-- When benchmark names are canonical and non-empty, the canonical name
of a tool with non-empty trim is non-empty and canonical. -/
theorem canonicalToolName_good (bs : List SaaSBenchmark)
    (hbs : ∀ b ∈ bs, canonicalToolName bs b.tool = b.tool ∧ b.tool ≠ "") {t : String}
    (ht : trimStr t ≠ "") :
    canonicalToolName bs t ≠ "" ∧
    canonicalToolName bs (canonicalToolName bs t) = canonicalToolName bs t := by
  refine ⟨?_, canonicalToolName_idem bs (fun b hb => (hbs b hb).1) t⟩
  unfold canonicalToolName
  cases hfind : findBenchmarkForTool bs t with
  | some b => exact (hbs b (List.mem_of_find?_eq_some hfind)).2
  | none => exact ht

/-- A key bound in the association list is found by lookup. -/
theorem lookupIdx_isSome_of_mem {idx : List (String × Nat)} {k : String} {v : Nat}
    (h : (k, v) ∈ idx) : lookupIdx idx k ≠ none := by
  induction idx with
  | nil => simp at h
  | cons e rest ih =>
    rcases e with ⟨k0, v0⟩
    by_cases hk : k0 == k
    · rw [lookupIdx, if_pos hk]
      simp
    · rw [lookupIdx, if_neg hk]
      rcases List.mem_cons.mp h with heq | hold
      · injection heq with h1 _
        exact absurd (by simp [h1]) hk
      · exact ih hold

/-- Setting a position to the value it already holds is the identity. -/
theorem set_get?_self {α : Type} (l : List α) (n : Nat) (a : α) (h : l.get? n = some a) :
    l.set n a = l := by
  apply List.ext
  intro m
  by_cases hm : m = n
  · subst hm
    rw [List.get?_set_eq, h]
    rfl
  · rw [List.get?_set_ne _ _ (fun hx => hm hx.symm)]

/-- Soundness of the initial index: a lookup hit names the key stored at
that position. -/
theorem buildIndex_sound (items : List LineItem) :
    ∀ (k : String) (i : Nat), lookupIdx (buildIndex items) k = some i →
      (items.map fun it => normalizeToolName it.tool).get? i = some k := by
  intro k i h
  have hmem := lookupIdx_mem h
  rcases (mem_buildIndexFrom items 0 [] (k, i)).mp hmem with hnil | ⟨j, it, hget, heq⟩
  · simp at hnil
  · injection heq with hk hi
    have hij : i = j := by omega
    subst hij
    rw [List.get?_map, hget, hk]
    rfl

/-- Completeness of the initial index: every stored key is found. -/
theorem buildIndex_complete (items : List LineItem) :
    ∀ (i : Nat) (k : String),
      (items.map fun it => normalizeToolName it.tool).get? i = some k →
      lookupIdx (buildIndex items) k ≠ none := by
  intro i k hg
  rw [List.get?_map] at hg
  cases hget : items.get? i with
  | none =>
    rw [hget] at hg
    cases hg
  | some it =>
    rw [hget] at hg
    injection hg with h2
    apply lookupIdx_isSome_of_mem (v := i)
    apply (mem_buildIndexFrom items 0 [] (k, i)).mpr
    refine Or.inr ⟨i, it, hget, ?_⟩
    rw [← h2]
    simp

/-- The merge-loop invariant: with canonical, non-empty benchmark names
and stop-list-filtered incoming items, the loop preserves key uniqueness
and keeps the tool of every working item non-empty and canonical. -/
theorem mergeFold_inv (bs : List SaaSBenchmark)
    (hbs : ∀ b ∈ bs, canonicalToolName bs b.tool = b.tool ∧ b.tool ≠ "") :
    ∀ (incoming : List LineItem), (∀ c ∈ incoming, trimStr c.tool ≠ "") →
    ∀ (merged : List LineItem) (idx : List (String × Nat)),
      (merged.map fun it => normalizeToolName it.tool).Nodup →
      (∀ it ∈ merged, it.tool ≠ "" ∧ canonicalToolName bs it.tool = it.tool) →
      (∀ (k : String) (i : Nat), lookupIdx idx k = some i →
        (merged.map fun it => normalizeToolName it.tool).get? i = some k) →
      (∀ (i : Nat) (k : String),
        (merged.map fun it => normalizeToolName it.tool).get? i = some k →
        lookupIdx idx k ≠ none) →
      ((incoming.foldl (mergeStep bs) (merged, idx)).1.map fun it =>
          normalizeToolName it.tool).Nodup ∧
      (∀ it ∈ (incoming.foldl (mergeStep bs) (merged, idx)).1,
        it.tool ≠ "" ∧ canonicalToolName bs it.tool = it.tool) := by
  intro incoming
  induction incoming with
  | nil =>
    intro _ merged idx h1 h2 _ _
    exact ⟨h1, h2⟩
  | cons c cs ih =>
    intro hin merged idx h1 h2 h3 h4
    have hc : trimStr c.tool ≠ "" := hin c (List.mem_cons_self _ _)
    have hcs : ∀ c2 ∈ cs, trimStr c2.tool ≠ "" :=
      fun c2 h => hin c2 (List.mem_cons_of_mem _ h)
    rw [List.foldl_cons]
    cases hlook : lookupIdx idx (normalizeToolName (canonicalToolName bs c.tool)) with
    | none =>
      rw [mergeStep_lookup_none hlook]
      refine ih hcs _ _ ?_ ?_ ?_ ?_
      · rw [List.map_append, List.nodup_append]
        refine ⟨h1, by simp, ?_⟩
        intro a ha hb
        have hainK : a = normalizeToolName (canonicalToolName bs c.tool) := by
          simpa using hb
        subst hainK
        rcases List.mem_iff_get?.mp ha with ⟨n, hn⟩
        exact h4 n _ hn hlook
      · intro it hmem
        rcases List.mem_append.mp hmem with hold | hnew
        · exact h2 it hold
        · have : it = ({ c with tool := canonicalToolName bs c.tool } : LineItem) := by
            simpa using hnew
          subst this
          exact canonicalToolName_good bs hbs hc
      · intro k i hl
        rw [lookupIdx] at hl
        by_cases hk : (normalizeToolName (canonicalToolName bs c.tool) == k)
        · rw [if_pos hk] at hl
          injection hl with hi
          subst hi
          have hkk : normalizeToolName (canonicalToolName bs c.tool) = k := by
            simpa using hk
          rw [List.map_append]
          simp only [List.map_cons, List.map_nil]
          have hlen : (merged.map fun it => normalizeToolName it.tool).length =
              merged.length := by simp
          rw [← hlen, List.get?_concat_length]
          show some (normalizeToolName (canonicalToolName bs c.tool)) = some k
          rw [hkk]
        · rw [if_neg hk] at hl
          have hold := h3 k i hl
          have hilt : i < (merged.map fun it => normalizeToolName it.tool).length := by
            rcases List.get?_eq_some.mp hold with ⟨hh, _⟩
            exact hh
          rw [List.map_append, List.get?_append hilt]
          exact hold
      · intro i k hg
        rw [lookupIdx]
        by_cases hk : (normalizeToolName (canonicalToolName bs c.tool) == k)
        · rw [if_pos hk]
          simp
        · rw [if_neg hk]
          rw [List.map_append] at hg
          by_cases hi : i < (merged.map fun it => normalizeToolName it.tool).length
          · rw [List.get?_append hi] at hg
            exact h4 i k hg
          · exfalso
            rw [List.get?_append_right (Nat.le_of_not_lt hi)] at hg
            rcases hdiff : i - (merged.map fun it => normalizeToolName it.tool).length with
              _ | n
            · rw [hdiff] at hg
              injection hg with hkeq
              exact absurd (by simp [hkeq]) hk
            · rw [hdiff] at hg
              cases hg
    | some i =>
      cases hcur : merged.get? i with
      | none =>
        rw [mergeStep_lookup_miss hlook hcur]
        exact ih hcs merged idx h1 h2 h3 h4
      | some current =>
        rw [mergeStep_lookup_set hlook hcur]
        have hcur_good := h2 current (List.get?_mem hcur)
        have htool : (mergeFields current c).tool = current.tool := by
          show (if current.tool == "" then c.tool else current.tool) = current.tool
          have hne : ¬ ((current.tool == "") = true) := by simp [hcur_good.1]
          exact if_neg hne
        have hkeys_eq :
            ((merged.set i (mergeFields current c)).map fun it => normalizeToolName it.tool) =
              merged.map fun it => normalizeToolName it.tool := by
          rw [List.map_set]
          have hky : normalizeToolName (mergeFields current c).tool =
              normalizeToolName current.tool := by rw [htool]
          rw [hky]
          apply set_get?_self
          rw [List.get?_map, hcur]
          rfl
        refine ih hcs _ idx ?_ ?_ ?_ ?_
        · rw [hkeys_eq]
          exact h1
        · intro it hmem
          rcases List.mem_or_eq_of_mem_set hmem with hold | heq
          · exact h2 it hold
          · subst heq
            constructor
            · rw [htool]
              exact hcur_good.1
            · rw [htool]
              exact hcur_good.2
        · intro k i2 hl
          rw [hkeys_eq]
          exact h3 k i2 hl
        · intro i2 k hg
          rw [hkeys_eq] at hg
          exact h4 i2 k hg

/-- C1: when the benchmark names are canonical and non-empty, the existing
list is canonically named with pairwise-distinct identities, and every
incoming item has a non-empty trimmed tool (as the stop-list filter
guarantees at the call site), the merge result has pairwise-distinct
canonical lower-cased identities and no empty tool names; and the
Slack/slack scenario merges to exactly one item with the canonical casing
of the first mention and the new plan applied. -/
theorem C1_merge_dedup_nonempty :
    (∀ (bs : List SaaSBenchmark) (existing incoming : List LineItem),
      (∀ b ∈ bs, canonicalToolName bs b.tool = b.tool ∧ b.tool ≠ "") →
      (∀ it ∈ existing, canonicalToolName bs it.tool = it.tool ∧ it.tool ≠ "") →
      (existing.map fun it => normalizeToolName it.tool).Nodup →
      (∀ c ∈ incoming, trimStr c.tool ≠ "") →
      ((mergeLineItems bs existing incoming).Pairwise fun a b =>
        normalizeToolName (canonicalToolName bs a.tool) ≠
          normalizeToolName (canonicalToolName bs b.tool)) ∧
      (∀ it ∈ mergeLineItems bs existing incoming, it.tool ≠ "")) ∧
    mergeLineItems SAAS_BENCHMARKS [{ tool := "Slack" }]
        [{ tool := "slack", plan := some "Pro" }] =
      [{ tool := "Slack", plan := some "Pro", currency := some "USD" }] := by
  constructor
  · intro bs existing incoming hbs hex hnodup hin
    have hstart_eq :
        (existing.map fun it => { it with tool := canonicalToolName bs it.tool }) = existing := by
      have hid : ∀ it ∈ existing,
          ({ it with tool := canonicalToolName bs it.tool } : LineItem) = it := by
        intro it hit
        rw [(hex it hit).1]
      calc (existing.map fun it => { it with tool := canonicalToolName bs it.tool })
          = existing.map id := List.map_congr_left hid
        _ = existing := List.map_id existing
    have hfold := mergeFold_inv bs hbs incoming hin existing (buildIndex existing) hnodup
      (fun it hit => ⟨(hex it hit).2, (hex it hit).1⟩)
      (buildIndex_sound existing) (buildIndex_complete existing)
    have hres : mergeLineItems bs existing incoming =
        (incoming.foldl (mergeStep bs) (existing, buildIndex existing)).1 := by
      unfold mergeLineItems
      rw [hstart_eq]
    rw [hres]
    constructor
    · have hp : (incoming.foldl (mergeStep bs) (existing, buildIndex existing)).1.Pairwise
          (fun a b => normalizeToolName a.tool ≠ normalizeToolName b.tool) :=
        List.pairwise_map.mp hfold.1
      refine List.Pairwise.imp_of_mem ?_ hp
      intro a b ha hb hne
      rw [(hfold.2 a ha).2, (hfold.2 b hb).2]
      exact hne
    · intro it hit
      exact (hfold.2 it hit).1
  · decide

/-- Witness for C1: a merge through the live benchmark data satisfies the
hypotheses and the conclusions. -/
theorem C1_merge_dedup_nonempty_witness :
    ((mergeLineItems SAAS_BENCHMARKS [{ tool := "Slack" }]
        [{ tool := "slack", plan := some "Pro" }]).Pairwise fun a b =>
      normalizeToolName (canonicalToolName SAAS_BENCHMARKS a.tool) ≠
        normalizeToolName (canonicalToolName SAAS_BENCHMARKS b.tool)) ∧
    (∀ it ∈ mergeLineItems SAAS_BENCHMARKS [{ tool := "Slack" }]
        [{ tool := "slack", plan := some "Pro" }], it.tool ≠ "") :=
  C1_merge_dedup_nonempty.1 SAAS_BENCHMARKS [{ tool := "Slack" }]
    [{ tool := "slack", plan := some "Pro" }]
    (by decide) (by decide) (by decide) (by decide)

/-- Every `confirm_plans` turn either returns to `collect` or leaves the
state untouched. -/
theorem confirmPlansTurn_state (s : IntakeState) (msg : String) :
    (confirmPlansTurn s msg).1.stage = Stage.collect ∨ (confirmPlansTurn s msg).1 = s := by
  simp only [confirmPlansTurn]
  split
  · split
    · exact Or.inl rfl
    · exact Or.inr rfl
  · split
    · split
      · exact Or.inl rfl
      · exact Or.inr rfl
    · exact Or.inr rfl

/-- The resolution tail never reaches `ready`, and reaches `confirm_more`
only carrying a non-empty list. -/
theorem collectResolve_stageInv (bs : List SaaSBenchmark) (s : IntakeState) (msg : String)
    (ee : Bool) (merged1 : List LineItem) (hne : merged1 ≠ []) :
    ((collectResolve bs s msg ee merged1).1.stage = Stage.ready ∨
      (collectResolve bs s msg ee merged1).1.stage = Stage.confirm_more) →
    (collectResolve bs s msg ee merged1).1.lineItems ≠ [] := by
  simp only [collectResolve]
  repeat' split
  all_goals intro hcontra
  all_goals try (rcases hcontra with h | h <;> simp at h)
  all_goals first | exact hne | simpa using hne

/-- The advance tail never reaches `ready`, and reaches `confirm_more`
only carrying a non-empty merged list. -/
theorem collectAdvance_stageInv (bs : List SaaSBenchmark) (s : IntakeState) (msg : String)
    (ee : Bool) (merged0 : List LineItem) (hne : merged0 ≠ []) :
    ((collectAdvance bs s msg ee merged0).1.stage = Stage.ready ∨
      (collectAdvance bs s msg ee merged0).1.stage = Stage.confirm_more) →
    (collectAdvance bs s msg ee merged0).1.lineItems ≠ [] := by
  simp only [collectAdvance]
  split
  · apply collectResolve_stageInv
    simpa using hne
  · exact collectResolve_stageInv bs s msg ee merged0 hne

/-- The collection block never reaches `ready`, and reaches
`confirm_more` only with a non-empty item list. -/
theorem collectTurn_stageInv (bs : List SaaSBenchmark) (s : IntakeState) (msg : String)
    (o : TurnOracle) :
    ((collectTurn bs s msg o).1.stage = Stage.ready ∨
      (collectTurn bs s msg o).1.stage = Stage.confirm_more) →
    (collectTurn bs s msg o).1.lineItems ≠ [] := by
  simp only [collectTurn]
  split
  next hneg =>
    intro _
    have h2 : (!s.lineItems.isEmpty) = true := by
      simp only [Bool.and_eq_true] at hneg
      exact hneg.2
    have h3 : s.lineItems.isEmpty = false := by simpa using h2
    simp [List.isEmpty_iff] at h3
    exact h3
  next hneg =>
    split
    next hempty =>
      intro hcontra
      rcases hcontra with h | h <;> simp at h
    next hnonempty =>
      apply collectAdvance_stageInv
      intro hnil
      exact hnonempty (by simp [hnil])

/-- One intake turn preserves the stage invariant. -/
theorem intakeTurn_stageInv (bs : List SaaSBenchmark) (s : IntakeState) (msg : String)
    (o : TurnOracle)
    (hs : (s.stage = Stage.ready ∨ s.stage = Stage.confirm_more) → s.lineItems ≠ []) :
    ((intakeTurn bs s msg o).1.stage = Stage.ready ∨
      (intakeTurn bs s msg o).1.stage = Stage.confirm_more) →
    (intakeTurn bs s msg o).1.lineItems ≠ [] := by
  simp only [intakeTurn]
  split
  · exact hs
  · split
    next heq =>
      rcases confirmPlansTurn_state s msg with h | h
      · intro hcontra
        rcases hcontra with hc | hc <;> rw [h] at hc <;> simp at hc
      · intro hcontra
        rw [h] at hcontra ⊢
        rcases hcontra with hc | hc <;> rw [heq] at hc <;> simp at hc
    next heq =>
      split
      · intro hcontra
        rcases hcontra with hc | hc <;> simp at hc
      · split
        · split
          · intro hcontra
            rcases hcontra with hc | hc <;> simp at hc
          · intro _
            exact hs (Or.inr heq)
        · exact hs
    next heq =>
      split
      · intro hcontra
        rcases hcontra with hc | hc <;> rw [heq] at hc <;> simp at hc
      · exact collectTurn_stageInv bs s msg o
    next heq =>
      split
      · intro hcontra
        rcases hcontra with hc | hc <;> simp at hc
      · intro _
        exact hs (Or.inl heq)
    next heq =>
      intro hcontra
      rcases hcontra with hc | hc <;> rw [heq] at hc <;> simp at hc
    next heq =>
      exact collectTurn_stageInv bs s msg o

/-- C2: on every state reachable from the empty initial intake state,
`ready` or `confirm_more` implies a non-empty line-item list; and when
the merged list of a collection turn comes out empty, the turn persists
stage `collect` with the generic collection prompt, whatever the prior
stage was. -/
theorem C2_stage_invariant :
    (∀ (bs : List SaaSBenchmark) (s : IntakeState), ReachableIntake bs s →
      (s.stage = Stage.ready ∨ s.stage = Stage.confirm_more) → s.lineItems ≠ []) ∧
    (∀ (bs : List SaaSBenchmark) (state : IntakeState) (msg : String) (o : TurnOracle),
      (isNegative msg && !state.lineItems.isEmpty) = false →
      mergeLineItems bs state.lineItems (filterExtractedItems (o.extraction.getD [])) = [] →
      collectTurn bs state msg o =
        ({ state with lineItems := [], stage := Stage.collect }, TurnReply.collectPrompt)) := by
  constructor
  · intro bs s hreach
    induction hreach with
    | init =>
      intro h
      rcases h with h | h <;> simp [initialIntakeState] at h
    | step s msg o _ ih => exact intakeTurn_stageInv bs s msg o ih
  · intro bs state msg o hneg hmerge
    simp only [collectTurn, hneg, hmerge]
    simp

/-- Witness for C2: a reachable `confirm_more` state has items, and a
turn whose merge comes out empty is forced back to `collect`. -/
theorem C2_stage_invariant_witness :
    (intakeTurn SAAS_BENCHMARKS initialIntakeState "hi"
      { extraction := some [{ tool := "Slack"
                              plan := some "Business+"
                              seats := some 45
                              annualCost := some 19000
                              currency := some "USD" }]
        advisorOk := false
        userId := false }).1.lineItems ≠ [] ∧
    collectTurn SAAS_BENCHMARKS initialIntakeState "hello"
        { extraction := none, advisorOk := false, userId := false } =
      ({ initialIntakeState with lineItems := [], stage := Stage.collect },
        TurnReply.collectPrompt) := by
  constructor
  · exact C2_stage_invariant.1 SAAS_BENCHMARKS _
      (ReachableIntake.step initialIntakeState "hi"
        { extraction := some [{ tool := "Slack"
                                plan := some "Business+"
                                seats := some 45
                                annualCost := some 19000
                                currency := some "USD" }]
          advisorOk := false
          userId := false } ReachableIntake.init)
      (Or.inr (by decide))
  · exact C2_stage_invariant.2 SAAS_BENCHMARKS initialIntakeState "hello"
      { extraction := none, advisorOk := false, userId := false } (by decide) (by decide)
